import Mathlib

set_option maxRecDepth 100000

/-!
A shallow embedding of the UnixFileSys user API (`src/fs.c`) together with a
model of the underlying BFS layer (`bfs*` functions, open file table, inode
table, free list and block device), which is part of this repository but not
present under `src/`; every such modelled definition carries a doc comment
starting with `Modelled from the spec:`.  The functions `fsRead`, `fsWrite`,
`fsSeek`, `fsTell`, `fsSize`, `fsOpen`, `fsCreate` are translated line by line
from `src/fs.c`.

Bytes are modelled as `Int` (the C `i8` content values), block contents as
`List Int` of length `BYTESPERBLOCK`, cursors and sizes as `Nat` (they are
non-negative `i32` values in every reachable state), and signed quantities
(seek offsets, return codes) as `Int`.  A C `FATAL(e)` call terminates the
process; it is modelled as the `.error e` branch of an `Except`, while all
sentinel values that the C code *returns* to its caller are modelled as
ordinary `.ok` return values.
-/

/-- Number of bytes per disk block (the BFS layout uses 512-byte blocks). -/
def BYTESPERBLOCK : Nat := 512

/-- Modelled from the spec: `fs.h` is not under `src/`; the error sentinels are
distinct negative `i32` values, distinguishable from every success value.
The exact numbers are representative. -/
def EFNF : Int := -1

/-- Modelled from the spec: sentinel returned by `bfsFbnToDbn` for an unmapped
file block number ("needs allocation", not an error). -/
def ENODBN : Int := -2

/-- Modelled from the spec: sentinel returned by `fsRead` on its end-of-file
branch. -/
def EBADREAD : Int := -3

/-- Modelled from the spec: code passed to `FATAL` for a negative cursor. -/
def EBADCURS : Int := -4

/-- Modelled from the spec: code passed to `FATAL` for an invalid `whence`. -/
def EBADWHENCE : Int := -5

/-- The `whence` value `SEEK_SET` (stdio constant 0). -/
def SEEK_SET : Int := 0

/-- The `whence` value `SEEK_CUR` (stdio constant 1). -/
def SEEK_CUR : Int := 1

/-- The `whence` value `SEEK_END` (stdio constant 2). -/
def SEEK_END : Int := 2

/-- Modelled from the spec: an inode record: in-use flag, logical size in
bytes, and the FBN-to-DBN chain, kept as an association list whose most
recent binding for a key shadows older ones. -/
structure Inode where
  used : Bool
  size : Nat
  blocks : List (Nat × Nat)
deriving DecidableEq

/-- Modelled from the spec: an open file table entry binding an inode number
to a byte cursor and a reference count. -/
structure OFTE where
  inum : Nat
  curs : Nat
  refcnt : Nat
deriving DecidableEq

/-- Modelled from the spec: the process-wide state: inode table, directory,
open file table (`g_oft`), block device contents and free list.  The
directory maps names to inode numbers; the disk maps a DBN to the block
content most recently written there; the free list holds the DBNs available
for allocation, popped from the front. -/
structure FSState where
  inodes : List Inode
  dir : List (String × Nat)
  oft : List OFTE
  disk : List (Int × List Int)
  freeList : List Nat
deriving DecidableEq

/-- An all-zero block, the content of a freshly `memset` buffer and of a hole. -/
def zeroBlock : List Int := List.replicate BYTESPERBLOCK 0

/-- Association-list lookup for the FBN-to-DBN chain (first binding wins). -/
def assocFind : List (Nat × Nat) → Nat → Option Nat
  | [], _ => none
  | (k, v) :: rest, key => if k = key then some v else assocFind rest key

/-- Association-list lookup for the disk (first binding wins, i.e. the most
recently written content of a DBN). -/
def diskFind : List (Int × List Int) → Int → Option (List Int)
  | [], _ => none
  | (k, v) :: rest, key => if k = key then some v else diskFind rest key

/-- Index of the first OFT slot bound to `inum`, if any. -/
def findOFTEIdx : List OFTE → Nat → Option Nat
  | [], _ => none
  | e :: rest, inum => if e.inum = inum then some 0 else (findOFTEIdx rest inum).map (· + 1)

/-- The inode record for `inum` (an out-of-range index reads as an unused,
empty inode; the C code never takes that path for a valid descriptor). -/
def getInode (s : FSState) (inum : Nat) : Inode := (s.inodes[inum]?).getD ⟨false, 0, []⟩

/-- Replace the inode record for `inum`. -/
def setInode (s : FSState) (inum : Nat) (ino : Inode) : FSState :=
  { s with inodes := s.inodes.set inum ino }

/-- Modelled from the spec: `bfsGetSize` returns the inode's logical size. -/
def bfsGetSize (s : FSState) (inum : Nat) : Nat := (getInode s inum).size

/-- Modelled from the spec: `bfsFbnToDbn` resolves a file block number to its
disk block number through the inode's chain, returning `ENODBN` when the FBN
is unmapped (this signals "needs allocation", not an error). -/
def bfsFbnToDbn (s : FSState) (inum fbn : Nat) : Int :=
  match assocFind (getInode s inum).blocks fbn with
  | some d => (d : Int)
  | none => ENODBN

/-- Modelled from the spec: `bfsAllocBlock` pops one block from the free list,
maps it at position `fbn` of the inode's chain, and updates the size
bookkeeping (the size is the high-water mark of whole blocks, and the block
chain grows monotonically).  Allocation fails with a Free-List-Exhausted
sentinel when no free block remains; `fs.c` discards the return value of
`bfsAllocBlock`, so the failing call is modelled as leaving the state
unchanged. -/
def bfsAllocBlock (s : FSState) (inum fbn : Nat) : FSState :=
  match s.freeList with
  | [] => s
  | d :: rest =>
    let ino := getInode s inum
    { setInode s inum
        { ino with blocks := (fbn, d) :: ino.blocks,
                   size := max ino.size ((fbn + 1) * BYTESPERBLOCK) }
      with freeList := rest }

/-- Modelled from the spec: `bioWrite` persists a whole block at `dbn`
(write-through, no deferred flush). -/
def bioWrite (s : FSState) (dbn : Int) (blk : List Int) : FSState :=
  { s with disk := (dbn, blk) :: s.disk }

/-- Modelled from the spec: `bfsRead` resolves `fbn` through the inode chain
and reads the device block.  A hole (unmapped FBN) is a logical region
materialised as zero-filled blocks only when written, so it reads as zeros. -/
def bfsRead (s : FSState) (inum fbn : Nat) : List Int :=
  let dbn := bfsFbnToDbn s inum fbn
  if dbn == ENODBN then zeroBlock else (diskFind s.disk dbn).getD zeroBlock

/-- Modelled from the spec: descriptor-to-inode resolution through the OFT
slot the descriptor indexes. -/
def bfsFdToInum (s : FSState) (fd : Nat) : Nat := ((s.oft[fd]?).map OFTE.inum).getD 0

/-- Modelled from the spec: `findEntryForInum` — the slot index of the first
OFT entry bound to `inum`, used internally by seek and tell. -/
def bfsFindOFTE (s : FSState) (inum : Nat) : Nat := (findOFTEIdx s.oft inum).getD 0

/-- The cursor stored in OFT slot `i`. -/
def cursAt (s : FSState) (i : Nat) : Nat := ((s.oft[i]?).map OFTE.curs).getD 0

/-- Overwrite the cursor stored in OFT slot `i` (no-op on an absent slot). -/
def setCursAt (s : FSState) (i : Nat) (v : Nat) : FSState :=
  match s.oft[i]? with
  | some e => { s with oft := s.oft.set i { e with curs := v } }
  | none => s

/-- Modelled from the spec: `bfsTell` reads the cursor of the OFT entry found
for the descriptor's inode number. -/
def bfsTell (s : FSState) (fd : Nat) : Nat := cursAt s (bfsFindOFTE s (bfsFdToInum s fd))

/-- Modelled from the spec: `bfsLookupFile` resolves a name in the directory,
returning the inode number or `EFNF`. -/
def bfsLookupFile (s : FSState) (fname : String) : Int :=
  match s.dir.find? (fun p => p.1 == fname) with
  | some p => (p.2 : Int)
  | none => EFNF

/-- Modelled from the spec: `bfsInumToFd` binds `inum` to a fresh OFT slot
(cursor 0, refcount 1); the descriptor is the slot index. -/
def bfsInumToFd (s : FSState) (inum : Nat) : Int × FSState :=
  ((s.oft.length : Int), { s with oft := s.oft ++ [⟨inum, 0, 1⟩] })

/-- Modelled from the spec: `bfsCreateFile` reuses the inode of an existing
name, otherwise allocates a fresh in-use inode of size 0 with an empty chain
and enters it in the directory. -/
def bfsCreateFile (s : FSState) (fname : String) : Int × FSState :=
  match s.dir.find? (fun p => p.1 == fname) with
  | some p => ((p.2 : Int), s)
  | none =>
    ((s.inodes.length : Int),
     { s with inodes := s.inodes ++ [⟨true, 0, []⟩],
              dir := (fname, s.inodes.length) :: s.dir })

/-- `fsOpen` (fs.c lines 71-75): look the name up in the directory and bind a
descriptor, or return `EFNF`. -/
def fsOpen (s : FSState) (fname : String) : Int × FSState :=
  let inum := bfsLookupFile s fname
  if inum == EFNF then (EFNF, s) else bfsInumToFd s inum.toNat

/-- `fsCreate` (fs.c lines 22-26): create the file and bind a descriptor, or
return `EFNF`. -/
def fsCreate (s : FSState) (fname : String) : Int × FSState :=
  let r := bfsCreateFile s fname
  if r.1 == EFNF then (EFNF, s) else bfsInumToFd r.2 r.1.toNat

/-- `fsSize` (fs.c lines 204-207): the inode's logical size. -/
def fsSize (s : FSState) (fd : Nat) : Nat := bfsGetSize s (bfsFdToInum s fd)

/-- `fsTell` (fs.c lines 193-195): the cursor position for the descriptor. -/
def fsTell (s : FSState) (fd : Nat) : Nat := bfsTell s fd

/-- `fsSeek` (fs.c lines 163-186).  `FATAL(e)` is modelled as `.error e`; a
successful call returns `.ok (0, newState)`.  Note that the C code rejects
every negative `offset` argument up front, before looking at `whence`. -/
def fsSeek (s : FSState) (fd : Nat) (offset : Int) (whence : Int) :
    Except Int (Int × FSState) :=
  if offset < 0 then .error EBADCURS
  else
    let inum := bfsFdToInum s fd
    let ofte := bfsFindOFTE s inum
    if whence == SEEK_SET then .ok (0, setCursAt s ofte offset.toNat)
    else if whence == SEEK_CUR then .ok (0, setCursAt s ofte (cursAt s ofte + offset.toNat))
    else if whence == SEEK_END then .ok (0, setCursAt s ofte (fsSize s fd + offset.toNat))
    else .error EBADWHENCE

/-- The chunk size used by both transfer loops in fs.c (lines 104-114 and
246-255): from a nonzero in-block offset, at most the rest of the block,
otherwise at most one whole block. -/
def chunkCount (cursorIdx numb : Nat) : Nat :=
  if 0 < cursorIdx then
    (if BYTESPERBLOCK - cursorIdx < numb then BYTESPERBLOCK - cursorIdx else numb)
  else min BYTESPERBLOCK numb

/-- The source offset of the first copied chunk in `fsRead` (fs.c lines
104-117): the C code zeroes `cursorIdx` *inside* the first branch before the
`memcpy` runs, so the copy always starts at offset 0 of the block buffer. -/
def readSrcIdx (cursorIdx : Nat) : Nat := if 0 < cursorIdx then 0 else cursorIdx

/-- `memcpy(&dst[idx], src, src.length)` on a buffer of bytes. -/
def splice (dst : List Int) (idx : Nat) (src : List Int) : List Int :=
  dst.take idx ++ src ++ dst.drop (idx + src.length)

/-- The number of trailing zero bytes of a block, as counted by the loop at
fs.c lines 140-143. -/
def trailingZeros (blk : List Int) : Nat := (blk.reverse.takeWhile (fun b => b == 0)).length

/-- The `while (numb > 0)` loop of `fsRead` (fs.c lines 97-130), accumulating
the staging buffer `tempBuf`.  `none` is the end-of-file branch (line 125);
`some (tempBuf, fbn)` is normal loop exit with the final value of `fbn`.
The `fuel` argument only bounds the recursion; callers pass `numb + 1`,
which exceeds the number of iterations because every iteration consumes at
least one byte. -/
def readLoop : Nat → FSState → Nat → Nat → Nat → Nat → Nat → List Int → Option (List Int × Nat)
  | 0, _, _, _, _, _, fbn, acc => some (acc, fbn)
  | fuel + 1, s, inum, fd, numb, cursorIdx, fbn, acc =>
    if numb = 0 then some (acc, fbn)
    else
      let readBuf := bfsRead s inum fbn
      let readCount := chunkCount cursorIdx numb
      let acc2 := acc ++ (readBuf.drop (readSrcIdx cursorIdx)).take readCount
      if fsSize s fd < fbn * BYTESPERBLOCK then none
      else readLoop fuel s inum fd (numb - readCount) 0 (fbn + 1) acc2

/-- `fsRead` (fs.c lines 84-150).  The result is `.ok (returnValue, newState,
newCallerBuffer)`; `.error e` is a `FATAL` abort (reachable through the
`fsSeek` call at line 148 when the trailing-null trimming drives
`totalBytes` negative).  The end-of-file branch returns the `EBADREAD`
sentinel with the state and the caller's buffer untouched.  A `memcpy`
whose length argument is a negative `i32` is undefined behaviour in C; it
is modelled through `Int.toNat` (copying nothing), and the subsequent
`fsSeek` with the negative offset aborts. -/
def fsRead (s : FSState) (fd : Nat) (numb : Nat) (buf : List Int) :
    Except Int (Int × FSState × List Int) :=
  let inum := bfsFdToInum s fd
  let cursor := bfsTell s fd
  match readLoop (numb + 1) s inum fd numb (cursor % BYTESPERBLOCK) (cursor / BYTESPERBLOCK) [] with
  | none => .ok (EBADREAD, s, buf)
  | some (tempBuf, fbnEnd) =>
    let totalBytes : Int :=
      if tempBuf.headD 0 != 0 then
        (numb : Int) - trailingZeros (bfsRead s inum (fbnEnd - 1))
      else (numb : Int)
    let buf2 := tempBuf.take totalBytes.toNat ++ buf.drop totalBytes.toNat
    match fsSeek s fd totalBytes SEEK_CUR with
    | .ok (_, s2) => .ok (totalBytes, s2, buf2)
    | .error e => .error e

/-- The return value of an `fsRead` call (an `.error` abort reports its code). -/
def readRet : Except Int (Int × FSState × List Int) → Int
  | .ok (r, _, _) => r
  | .error e => e

/-- The caller's buffer after an `fsRead` call (empty on a `FATAL` abort). -/
def readBufOut : Except Int (Int × FSState × List Int) → List Int
  | .ok (_, _, b) => b
  | .error _ => []

/-- The state after an `fsRead` call (unchanged on a `FATAL` abort). -/
def readStOut (s : FSState) : Except Int (Int × FSState × List Int) → FSState
  | .ok (_, s2, _) => s2
  | .error _ => s

/-- The `fsSeek(fd, writeCount, SEEK_CUR)` call at fs.c line 267; its offset
is non-negative, so the `FATAL` branch is unreachable and the `.error` arm
of the match is dead code. -/
def seekCurOk (s : FSState) (fd : Nat) (k : Nat) : FSState :=
  match fsSeek s fd (k : Int) SEEK_CUR with
  | .ok (_, s1) => s1
  | .error _ => s

/-- The allocate-if-unmapped sequence appearing twice in `fsWrite` (fs.c
lines 229-238 and 269-280): fetch the DBN; if unmapped, allocate, re-fetch
the DBN and write a zero-filled block through it.  Returns the state and the
DBN the loop will write through (still `ENODBN` if allocation failed). -/
def fetchEnsure (s : FSState) (inum fbn : Nat) : FSState × Int :=
  let dbn := bfsFbnToDbn s inum fbn
  if dbn == ENODBN then
    let s1 := bfsAllocBlock s inum fbn
    let dbn1 := bfsFbnToDbn s1 inum fbn
    (bioWrite s1 dbn1 zeroBlock, dbn1)
  else (s, dbn)

/-- The `while (numb > 0)` loop of `fsWrite` (fs.c lines 240-281): read the
block, overlay the chunk at `cursorIdx`, persist it through `dbn`, advance
the cursor, then fetch (and allocate if unmapped) the next block.  The
`fuel` argument only bounds the recursion; callers pass `rest.length + 1`,
which exceeds the number of iterations because every iteration consumes at
least one byte. -/
def writeLoop : Nat → FSState → Nat → Nat → List Int → Nat → Nat → Int → FSState
  | 0, s, _, _, _, _, _, _ => s
  | fuel + 1, s, inum, fd, rest, cursorIdx, fbn, dbn =>
    if rest = [] then s
    else
      let writeBuf := bfsRead s inum fbn
      let writeCount := chunkCount cursorIdx rest.length
      let writeBuf2 := splice writeBuf cursorIdx (rest.take writeCount)
      let s1 := bioWrite s dbn writeBuf2
      let s2 := seekCurOk s1 fd writeCount
      let fe := fetchEnsure s2 inum (fbn + 1)
      writeLoop fuel fe.1 inum fd (rest.drop writeCount) 0 (fbn + 1) fe.2

/-- `fsWrite` (fs.c lines 216-283): ensure the cursor's block is mapped, then
run the block-by-block loop.  The C function always returns 0; it never
returns an error sentinel (the return value of `bfsAllocBlock` is
discarded). -/
def fsWrite (s : FSState) (fd : Nat) (data : List Int) : Int × FSState :=
  let inum := bfsFdToInum s fd
  let cursor := bfsTell s fd
  let fe := fetchEnsure s inum (cursor / BYTESPERBLOCK)
  (0, writeLoop (data.length + 1) fe.1 inum fd data (cursor % BYTESPERBLOCK)
       (cursor / BYTESPERBLOCK) fe.2)

/-! ### Concrete scenarios -/

/-- An empty, freshly formatted state with four free data blocks. -/
def c1s0 : FSState := ⟨[], [], [], [], [10, 11, 12, 13]⟩

/-- State after `fsCreate("a.txt")`; the returned descriptor is 0. -/
def c1s1 : FSState := (fsCreate c1s0 "a.txt").2

/-- State after writing 600 bytes of value 88 at cursor 0. -/
def c1s2 : FSState := (fsWrite c1s1 0 (List.replicate 600 88)).2

/-- State after seeking descriptor 0 back to position 0. -/
def c1s3 : FSState :=
  match fsSeek c1s2 0 0 SEEK_SET with
  | .ok (_, s) => s
  | .error _ => c1s2

/-- Result of reading 600 bytes back from position 0. -/
def c1res : Except Int (Int × FSState × List Int) := fsRead c1s3 0 600 (List.replicate 600 0)

/-- A file holding 1024 valid bytes (two mapped blocks), descriptor cursor 0. -/
def c2s : FSState := ⟨[⟨true, 1024, [(0, 5), (1, 6)]⟩], [], [⟨0, 0, 1⟩], [], []⟩

/-- A fresh empty file on a disk with no free block left. -/
def c3s : FSState := ⟨[⟨true, 0, []⟩], [], [⟨0, 0, 1⟩], [], []⟩

/-- A fresh empty file with free blocks available. -/
def c4s : FSState := ⟨[⟨true, 0, []⟩], [], [⟨0, 0, 1⟩], [], [20, 21, 22]⟩

/-- A one-file directory with no descriptor open yet. -/
def c5s0 : FSState := ⟨[⟨true, 0, []⟩], [("f", 0)], [], [], []⟩

/-- `c5s0` after two separate `fsOpen("f")` calls: descriptors 0 and 1, each
with its own OFT slot, cursor 0. -/
def c5s2 : FSState := (fsOpen (fsOpen c5s0 "f").2 "f").2

/-- `c5s2` after seeking descriptor 0 to position 5. -/
def c5s3 : FSState :=
  match fsSeek c5s2 0 5 SEEK_SET with
  | .ok (_, s) => s
  | .error _ => c5s2

/-- A file of size 10 with one mapped block, descriptor cursor 0. -/
def c7s : FSState := ⟨[⟨true, 10, [(0, 5)]⟩], [], [⟨0, 0, 1⟩], [], []⟩

/-! ### C1, C2, C3: evaluations at the failing inputs -/

/-- C1.  Round-trip fails on the code: writing 600 bytes of value 88 at
cursor 0, seeking back to 0 and reading 600 bytes returns 176 (the
trailing-null trimming at fs.c lines 135-145 subtracts the 424 trailing
zero bytes of the last block read), not len(B) = 600, and the caller's
buffer does not receive the 600 written bytes. -/
theorem C1_roundtrip_code_bug :
    readRet c1res = 176 ∧ (176 : Int) ≠ 600 ∧
      readBufOut c1res ≠ List.replicate 600 88 := by
  refine ⟨by decide, by decide, by decide⟩

/-- C2.  A read past end of file does not return the number of valid bytes
remaining: on a file of size 1024 with cursor 0, `fsRead(fd, 2048, buf)`
returns the `EBADREAD` sentinel (a negative value, fs.c line 125), not the
1024 valid bytes, and copies nothing into the caller's buffer. -/
theorem C2_eof_code_bug :
    fsRead c2s 0 2048 (List.replicate 2048 7) = .ok (EBADREAD, c2s, List.replicate 2048 7) ∧
      EBADREAD < 0 := by
  refine ⟨by rfl, by decide⟩

/-- C3.  Free-space exhaustion is not reported: on a disk with 0 free blocks,
writing 1 byte to a fresh file returns 0 (the success value; fs.c line 282
is the only return of `fsWrite` and the result of `bfsAllocBlock` at lines
233 and 275 is discarded), allocates no block and leaves the size at 0. -/
theorem C3_exhaustion_code_bug :
    (fsWrite c3s 0 [88]).1 = 0 ∧
      (getInode (fsWrite c3s 0 [88]).2 0).blocks = [] ∧
      (getInode (fsWrite c3s 0 [88]).2 0).size = 0 := by
  refine ⟨by decide, by decide, by decide⟩

/-! ### C4, C5, C6, C7: counterexamples -/

/-- C4 counterexample.  A write of 0 bytes does allocate a block: on a fresh
empty file with cursor 0, `fsWrite(fd, 0, buf)` maps FBN 0 (the
allocate-if-unmapped step at fs.c lines 229-238 runs before the loop,
regardless of `numb`). -/
theorem C4_lazy_alloc_counterexample :
    (getInode (fsWrite c4s 0 []).2 0).blocks ≠ [] ∧
      bfsFbnToDbn (fsWrite c4s 0 []).2 0 0 ≠ ENODBN := by
  refine ⟨by decide, by decide⟩

/-- C5 counterexample.  Descriptors are not isolated: after two separate
`fsOpen` calls on the same name (descriptors 0 and 1, both with cursor 0),
seeking descriptor 0 to position 5 also changes the cursor observed through
`fsTell` on descriptor 1 from 0 to 5. -/
theorem C5_isolation_counterexample :
    fsTell c5s2 1 = 0 ∧ fsTell c5s3 1 = 5 := by
  refine ⟨by decide, by decide⟩

/-- C6 counterexample.  A seek with a negative offset does not return a
recoverable sentinel to the caller: it aborts through `FATAL(EBADCURS)`
(fs.c line 165, modelled as the `.error` branch), and an invalid `whence`
aborts through `FATAL(EBADWHENCE)` (fs.c line 183). -/
theorem C6_seek_error_counterexample :
    fsSeek c7s 0 (-1) SEEK_SET = .error EBADCURS ∧
      fsSeek c7s 0 3 9 = .error EBADWHENCE := by
  refine ⟨by rfl, by rfl⟩

/-- C7 counterexample.  A negative offset is rejected even when the resulting
position is non-negative: on a file of size 10 with cursor 0,
`fsSeek(fd, -1, SEEK_END)` would land on position 9 but aborts with
`FATAL(EBADCURS)` (the check at fs.c line 165 tests the offset argument,
not the resulting offset). -/
theorem C7_seek_counterexample :
    fsSeek c7s 0 (-1) SEEK_END = .error EBADCURS ∧
      (0 : Int) ≤ (fsSize c7s 0 : Int) + (-1) := by
  refine ⟨by rfl, by decide⟩

/-! ### Open file table lemmas -/

lemma findOFTEIdx_spec : ∀ (l : List OFTE) (inum j : Nat), findOFTEIdx l inum = some j →
    ∃ e, l[j]? = some e ∧ e.inum = inum := by
  intro l
  induction l with
  | nil => intro inum j h; simp [findOFTEIdx] at h
  | cons e rest ih =>
    intro inum j h
    by_cases he : e.inum = inum
    · simp only [findOFTEIdx, he, if_pos, Option.some.injEq] at h
      exact h ▸ ⟨e, by simp, he⟩
    · simp only [findOFTEIdx, he, if_neg, not_false_iff, Option.map_eq_some'] at h
      obtain ⟨a, ha, rfl⟩ := h
      obtain ⟨e2, he2, hin⟩ := ih inum a ha
      exact ⟨e2, by simpa using he2, hin⟩

lemma findOFTEIdx_isSome : ∀ (l : List OFTE) (fd : Nat) (e : OFTE), l[fd]? = some e →
    (findOFTEIdx l e.inum).isSome := by
  intro l
  induction l with
  | nil => intro fd e h; simp at h
  | cons a rest ih =>
    intro fd e h
    by_cases ha : a.inum = e.inum
    · simp [findOFTEIdx, ha]
    · cases fd with
      | zero =>
        simp only [List.getElem?_cons_zero, Option.some.injEq] at h
        exact absurd (h ▸ rfl) ha
      | succ n =>
        simp only [List.getElem?_cons_succ] at h
        have := ih n e h
        simp [findOFTEIdx, ha, Option.isSome_map, this]

lemma findOFTEIdx_congr : ∀ (l1 l2 : List OFTE), l1.map OFTE.inum = l2.map OFTE.inum →
    ∀ inum, findOFTEIdx l1 inum = findOFTEIdx l2 inum := by
  intro l1
  induction l1 with
  | nil =>
    intro l2 h inum
    cases l2 with
    | nil => rfl
    | cons b r2 => simp at h
  | cons a r ih =>
    intro l2 h inum
    cases l2 with
    | nil => simp at h
    | cons b r2 =>
      simp only [List.map_cons, List.cons.injEq] at h
      obtain ⟨h1, h2⟩ := h
      simp only [findOFTEIdx, h1, ih r2 h2 inum]

lemma oft_map_inum_setCursAt (s : FSState) (i v : Nat) :
    (setCursAt s i v).oft.map OFTE.inum = s.oft.map OFTE.inum := by
  unfold setCursAt
  cases h : s.oft[i]? with
  | none => rfl
  | some e =>
    apply List.ext_getElem?
    intro j
    simp only [List.getElem?_map]
    by_cases hij : i = j
    · subst hij
      have hlen : i < s.oft.length := (List.getElem?_eq_some.mp h).1
      rw [List.getElem?_set_self hlen, h]
      rfl
    · rw [List.getElem?_set_ne hij]

lemma bfsFdToInum_eq_map (s : FSState) (fd : Nat) :
    bfsFdToInum s fd = ((s.oft.map OFTE.inum)[fd]?).getD 0 := by
  simp [bfsFdToInum, List.getElem?_map]

lemma bfsFdToInum_setCursAt (s : FSState) (i v fd : Nat) :
    bfsFdToInum (setCursAt s i v) fd = bfsFdToInum s fd := by
  rw [bfsFdToInum_eq_map, bfsFdToInum_eq_map, oft_map_inum_setCursAt]

lemma cursAt_setCursAt_self (s : FSState) (i v : Nat) (e : OFTE) (h : s.oft[i]? = some e) :
    cursAt (setCursAt s i v) i = v := by
  have hlen : i < s.oft.length := (List.getElem?_eq_some.mp h).1
  unfold setCursAt cursAt
  rw [h]
  simp [List.getElem?_set_self hlen]

/-- After `setCursAt` on the slot that `findOFTEIdx` locates for the inode of
descriptor `fd`, `bfsTell fd` reads back the written value. -/
lemma bfsTell_setCursAt_found (s : FSState) (j v fd : Nat) (e : OFTE)
    (hfd : s.oft[fd]? = some e)
    (hj : findOFTEIdx s.oft e.inum = some j) :
    bfsTell (setCursAt s j v) fd = v := by
  obtain ⟨e2, he2, hin2⟩ := findOFTEIdx_spec s.oft e.inum j hj
  have hinum : bfsFdToInum s fd = e.inum := by simp [bfsFdToInum, hfd]
  have hinum2 : bfsFdToInum (setCursAt s j v) fd = e.inum := by
    rw [bfsFdToInum_setCursAt]; exact hinum
  have hfind2 : findOFTEIdx (setCursAt s j v).oft e.inum = some j := by
    rw [findOFTEIdx_congr _ s.oft (oft_map_inum_setCursAt s j v)]
    exact hj
  unfold bfsTell bfsFindOFTE
  rw [hinum2, hfind2, Option.getD_some]
  exact cursAt_setCursAt_self s j v e2 he2

lemma bfsTell_found (s : FSState) (j fd : Nat) (e : OFTE)
    (hfd : s.oft[fd]? = some e)
    (hj : findOFTEIdx s.oft e.inum = some j) :
    bfsTell s fd = cursAt s j := by
  have hinum : bfsFdToInum s fd = e.inum := by simp [bfsFdToInum, hfd]
  unfold bfsTell bfsFindOFTE
  rw [hinum, hj, Option.getD_some]

/-! ### Unfolding lemmas for successful seeks -/

lemma fsSeek_set_eq (s : FSState) (fd : Nat) (off : Int) (hoff : 0 ≤ off) :
    fsSeek s fd off SEEK_SET =
      .ok (0, setCursAt s (bfsFindOFTE s (bfsFdToInum s fd)) off.toNat) := by
  unfold fsSeek
  rw [if_neg (not_lt.mpr hoff)]
  rfl

lemma fsSeek_cur_eq (s : FSState) (fd : Nat) (off : Int) (hoff : 0 ≤ off) :
    fsSeek s fd off SEEK_CUR =
      .ok (0, setCursAt s (bfsFindOFTE s (bfsFdToInum s fd))
        (cursAt s (bfsFindOFTE s (bfsFdToInum s fd)) + off.toNat)) := by
  unfold fsSeek
  rw [if_neg (not_lt.mpr hoff)]
  rfl

lemma fsSeek_end_eq (s : FSState) (fd : Nat) (off : Int) (hoff : 0 ≤ off) :
    fsSeek s fd off SEEK_END =
      .ok (0, setCursAt s (bfsFindOFTE s (bfsFdToInum s fd)) (fsSize s fd + off.toNat)) := by
  unfold fsSeek
  rw [if_neg (not_lt.mpr hoff)]
  rfl

/-! ### C6, C7, C5: amended theorems -/

/-- C6 amended.  A seek whose `offset` argument is negative aborts through
`FATAL(EBADCURS)` (it is not returned as a recoverable sentinel, and the
test is on the offset argument, not the resulting offset); a seek with a
`whence` outside SET/CUR/END aborts through `FATAL(EBADWHENCE)`.  In both
cases no successor state is produced, so no cursor changes. -/
theorem C6_seek_fatal_amended (s : FSState) (fd : Nat) (off whence : Int) :
    (off < 0 → fsSeek s fd off whence = .error EBADCURS) ∧
      (0 ≤ off → whence ≠ SEEK_SET → whence ≠ SEEK_CUR → whence ≠ SEEK_END →
        fsSeek s fd off whence = .error EBADWHENCE) := by
  constructor
  · intro h
    unfold fsSeek
    rw [if_pos h]
  · intro h0 h1 h2 h3
    unfold fsSeek
    rw [if_neg (not_lt.mpr h0)]
    simp [h1, h2, h3]

/-- C6 witness at concrete inputs. -/
theorem C6_seek_fatal_witness :
    fsSeek c7s 0 (-2) SEEK_CUR = .error EBADCURS ∧
      fsSeek c7s 0 5 7 = .error EBADWHENCE :=
  ⟨(C6_seek_fatal_amended c7s 0 (-2) SEEK_CUR).1 (by decide),
   (C6_seek_fatal_amended c7s 0 5 7).2 (by decide) (by decide) (by decide) (by decide)⟩

/-- C7 amended.  For every open descriptor and every non-negative offset,
SEEK_SET sets the cursor to `offset`, SEEK_CUR adds `offset` to the current
cursor, SEEK_END sets it to `size + offset`, each returning 0; every
negative offset is rejected through `FATAL(EBADCURS)` even when the
resulting position would be non-negative (see the counterexample). -/
theorem C7_seek_semantics_amended (s : FSState) (fd : Nat) (off : Int) (e : OFTE)
    (hfd : s.oft[fd]? = some e) (hoff : 0 ≤ off) :
    (∃ s1, fsSeek s fd off SEEK_SET = .ok (0, s1) ∧ fsTell s1 fd = off.toNat) ∧
      (∃ s2, fsSeek s fd off SEEK_CUR = .ok (0, s2) ∧
        fsTell s2 fd = fsTell s fd + off.toNat) ∧
      (∃ s3, fsSeek s fd off SEEK_END = .ok (0, s3) ∧
        fsTell s3 fd = fsSize s fd + off.toNat) := by
  obtain ⟨j, hj⟩ := Option.isSome_iff_exists.mp (findOFTEIdx_isSome s.oft fd e hfd)
  have hinum : bfsFdToInum s fd = e.inum := by simp [bfsFdToInum, hfd]
  have hofte : bfsFindOFTE s (bfsFdToInum s fd) = j := by
    unfold bfsFindOFTE
    rw [hinum, hj, Option.getD_some]
  refine ⟨⟨_, fsSeek_set_eq s fd off hoff, ?_⟩, ⟨_, fsSeek_cur_eq s fd off hoff, ?_⟩,
    ⟨_, fsSeek_end_eq s fd off hoff, ?_⟩⟩
  · show bfsTell _ fd = _
    rw [hofte]
    exact bfsTell_setCursAt_found s j _ fd e hfd hj
  · show bfsTell _ fd = _
    rw [hofte]
    rw [bfsTell_setCursAt_found s j _ fd e hfd hj]
    show cursAt s j + off.toNat = fsTell s fd + off.toNat
    rw [show fsTell s fd = cursAt s j from bfsTell_found s j fd e hfd hj]
  · show bfsTell _ fd = _
    rw [hofte]
    exact bfsTell_setCursAt_found s j _ fd e hfd hj

/-- C7 witness: on a file of size 10 with cursor 0, seeking with offset 4
through SET, CUR and END lands on cursor 4, 0 + 4 and 10 + 4 respectively,
each call returning 0. -/
theorem C7_seek_semantics_witness :
    (∃ s1, fsSeek c7s 0 4 SEEK_SET = .ok (0, s1) ∧ fsTell s1 0 = 4) ∧
      (∃ s2, fsSeek c7s 0 4 SEEK_CUR = .ok (0, s2) ∧ fsTell s2 0 = fsTell c7s 0 + 4) ∧
      (∃ s3, fsSeek c7s 0 4 SEEK_END = .ok (0, s3) ∧ fsTell s3 0 = fsSize c7s 0 + 4) :=
  C7_seek_semantics_amended c7s 0 4 ⟨0, 0, 1⟩ (by rfl) (by decide)

/-- C5 amended.  Two descriptors opened on the same name do not keep
independent cursors: `fsSeek` and `fsTell` both resolve the OFT entry
through the inode number (`bfsFindOFTE`), so a successful SEEK_SET through
one descriptor is observed by `fsTell` on every other descriptor bound to
the same inode. -/
theorem C5_shared_cursor_amended (s : FSState) (fd1 fd2 : Nat) (e1 e2 : OFTE) (off : Int)
    (r : Int) (s1 : FSState)
    (h1 : s.oft[fd1]? = some e1) (h2 : s.oft[fd2]? = some e2) (hinum : e1.inum = e2.inum)
    (hseek : fsSeek s fd1 off SEEK_SET = .ok (r, s1)) :
    fsTell s1 fd2 = off.toNat := by
  rcases lt_or_le off 0 with hneg | hoff
  · exfalso
    unfold fsSeek at hseek
    rw [if_pos hneg] at hseek
    exact absurd hseek (by simp)
  · rw [fsSeek_set_eq s fd1 off hoff] at hseek
    obtain ⟨j, hj⟩ := Option.isSome_iff_exists.mp (findOFTEIdx_isSome s.oft fd1 e1 h1)
    have hinum1 : bfsFdToInum s fd1 = e1.inum := by simp [bfsFdToInum, h1]
    have hofte : bfsFindOFTE s (bfsFdToInum s fd1) = j := by
      unfold bfsFindOFTE
      rw [hinum1, hj, Option.getD_some]
    rw [hofte] at hseek
    injection hseek with hpair
    cases hpair
    rw [hinum] at hj
    exact bfsTell_setCursAt_found s j _ fd2 e2 h2 hj

/-- C5 witness: in the two-descriptor scenario, seeking descriptor 0 to
position 5 is observed through descriptor 1. -/
theorem C5_shared_cursor_witness : fsTell c5s3 1 = 5 :=
  C5_shared_cursor_amended c5s2 0 1 ⟨0, 0, 1⟩ ⟨0, 0, 1⟩ 5 0 c5s3
    (by rfl) (by rfl) rfl (by rfl)

/-! ### C10: the end-of-file branch touches nothing -/

/-- A file of size 0 whose descriptor cursor sits at 600, so that a 1-byte
read immediately hits the end-of-file branch. -/
def c10s : FSState := ⟨[⟨true, 0, []⟩], [], [⟨0, 600, 1⟩], [], []⟩

/-- C10.  Whenever `fsRead` returns the `EBADREAD` sentinel, it does so from
the end-of-file branch (fs.c line 125), which returns before the `memcpy`
into the caller's buffer (line 147) and before the cursor-advancing
`fsSeek` (line 148): the whole call returns the state and the caller's
buffer exactly as they were. -/
theorem C10_read_error_atomic (s : FSState) (fd n : Nat) (buf : List Int)
    (h : readRet (fsRead s fd n buf) = EBADREAD) :
    fsRead s fd n buf = .ok (EBADREAD, s, buf) := by
  simp only [fsRead] at h ⊢
  cases hl : readLoop (n + 1) s (bfsFdToInum s fd) fd n (bfsTell s fd % BYTESPERBLOCK)
      (bfsTell s fd / BYTESPERBLOCK) [] with
  | none => rfl
  | some p =>
    exfalso
    obtain ⟨tempBuf, fbnEnd⟩ := p
    rw [hl] at h
    dsimp only at h
    generalize hTB : (if tempBuf.headD 0 != 0 then
        (n : Int) - trailingZeros (bfsRead s (bfsFdToInum s fd) (fbnEnd - 1))
      else (n : Int)) = tb at h
    rcases lt_or_le tb 0 with htb | htb
    · unfold fsSeek at h
      rw [if_pos htb] at h
      dsimp only [readRet] at h
      exact absurd h (by decide)
    · rw [fsSeek_cur_eq s fd tb htb] at h
      dsimp only [readRet] at h
      simp only [EBADREAD] at h
      omega

/-- C10 witness: a 1-byte read at cursor 600 on a size-0 file hits the
end-of-file branch and leaves state and buffer untouched. -/
theorem C10_read_error_atomic_witness :
    fsRead c10s 0 1 [7] = .ok (EBADREAD, c10s, [7]) :=
  C10_read_error_atomic c10s 0 1 [7] (by rfl)

/-! ### Association list and component lemmas -/

lemma assocFind_mem : ∀ (l : List (Nat × Nat)) (k v : Nat), assocFind l k = some v → (k, v) ∈ l := by
  intro l
  induction l with
  | nil => intro k v h; simp [assocFind] at h
  | cons p rest ih =>
    intro k v h
    obtain ⟨pk, pv⟩ := p
    by_cases hk : pk = k
    · subst hk
      rw [show assocFind ((pk, pv) :: rest) pk = some pv from by simp [assocFind]] at h
      injection h with h
      subst h
      exact List.mem_cons_self _ _
    · simp only [assocFind, if_neg hk] at h
      exact List.mem_cons_of_mem _ (ih k v h)

lemma assocFind_append_skip : ∀ (L l : List (Nat × Nat)) (k : Nat),
    (∀ pr ∈ L, pr.1 ≠ k) → assocFind (L ++ l) k = assocFind l k := by
  intro L
  induction L with
  | nil => intro l k _; rfl
  | cons p rest ih =>
    intro l k h
    obtain ⟨pk, pv⟩ := p
    have hpk : pk ≠ k := h (pk, pv) (List.mem_cons_self _ _)
    simp only [List.cons_append, assocFind, if_neg hpk]
    exact ih l k (fun pr hpr => h pr (List.mem_cons_of_mem _ hpr))

lemma assocFind_cons_self (k v : Nat) (l : List (Nat × Nat)) :
    assocFind ((k, v) :: l) k = some v := by
  simp [assocFind]

lemma assocFind_cons_ne (k' k v : Nat) (l : List (Nat × Nat)) (h : k' ≠ k) :
    assocFind ((k', v) :: l) k = assocFind l k := by
  simp [assocFind, h]

lemma diskFind_cons_self (k : Int) (v : List Int) (l : List (Int × List Int)) :
    diskFind ((k, v) :: l) k = some v := by
  simp [diskFind]

lemma diskFind_cons_ne (k' k : Int) (v : List Int) (l : List (Int × List Int)) (h : k' ≠ k) :
    diskFind ((k', v) :: l) k = diskFind l k := by
  simp [diskFind, h]

lemma fbnToDbn_eq_ENODBN_iff (s : FSState) (inum fbn : Nat) :
    bfsFbnToDbn s inum fbn = ENODBN ↔ assocFind (getInode s inum).blocks fbn = none := by
  unfold bfsFbnToDbn
  cases h : assocFind (getInode s inum).blocks fbn with
  | none => simp
  | some d =>
    simp only [h]
    constructor
    · intro hc
      rw [ENODBN] at hc
      omega
    · intro hc; cases hc

lemma fbnToDbn_some (s : FSState) (inum fbn d : Nat)
    (h : assocFind (getInode s inum).blocks fbn = some d) :
    bfsFbnToDbn s inum fbn = (d : Int) := by
  unfold bfsFbnToDbn
  rw [h]

/-! ### Component preservation for the primitive operations -/

lemma bioWrite_inodes (s : FSState) (dbn : Int) (blk : List Int) :
    (bioWrite s dbn blk).inodes = s.inodes := rfl

lemma bioWrite_oft (s : FSState) (dbn : Int) (blk : List Int) :
    (bioWrite s dbn blk).oft = s.oft := rfl

lemma bioWrite_freeList (s : FSState) (dbn : Int) (blk : List Int) :
    (bioWrite s dbn blk).freeList = s.freeList := rfl

lemma bioWrite_disk (s : FSState) (dbn : Int) (blk : List Int) :
    (bioWrite s dbn blk).disk = (dbn, blk) :: s.disk := rfl

lemma setCursAt_inodes (s : FSState) (i v : Nat) : (setCursAt s i v).inodes = s.inodes := by
  unfold setCursAt
  cases s.oft[i]? <;> rfl

lemma setCursAt_disk (s : FSState) (i v : Nat) : (setCursAt s i v).disk = s.disk := by
  unfold setCursAt
  cases s.oft[i]? <;> rfl

lemma setCursAt_freeList (s : FSState) (i v : Nat) :
    (setCursAt s i v).freeList = s.freeList := by
  unfold setCursAt
  cases s.oft[i]? <;> rfl

lemma seekCurOk_eq (s : FSState) (fd k : Nat) :
    seekCurOk s fd k = setCursAt s (bfsFindOFTE s (bfsFdToInum s fd))
      (cursAt s (bfsFindOFTE s (bfsFdToInum s fd)) + k) := by
  unfold seekCurOk
  rw [fsSeek_cur_eq s fd (k : Int) (Int.ofNat_nonneg k)]
  simp

lemma seekCurOk_inodes (s : FSState) (fd k : Nat) : (seekCurOk s fd k).inodes = s.inodes := by
  rw [seekCurOk_eq]; exact setCursAt_inodes ..

lemma seekCurOk_disk (s : FSState) (fd k : Nat) : (seekCurOk s fd k).disk = s.disk := by
  rw [seekCurOk_eq]; exact setCursAt_disk ..

lemma seekCurOk_freeList (s : FSState) (fd k : Nat) :
    (seekCurOk s fd k).freeList = s.freeList := by
  rw [seekCurOk_eq]; exact setCursAt_freeList ..

lemma seekCurOk_oft_map (s : FSState) (fd k : Nat) :
    (seekCurOk s fd k).oft.map OFTE.inum = s.oft.map OFTE.inum := by
  rw [seekCurOk_eq]; exact oft_map_inum_setCursAt ..

lemma bfsAllocBlock_oft (s : FSState) (inum fbn : Nat) :
    (bfsAllocBlock s inum fbn).oft = s.oft := by
  unfold bfsAllocBlock
  cases s.freeList <;> rfl

lemma bfsAllocBlock_disk (s : FSState) (inum fbn : Nat) :
    (bfsAllocBlock s inum fbn).disk = s.disk := by
  unfold bfsAllocBlock
  cases s.freeList <;> rfl

lemma bfsAllocBlock_inodes_length (s : FSState) (inum fbn : Nat) :
    (bfsAllocBlock s inum fbn).inodes.length = s.inodes.length := by
  unfold bfsAllocBlock
  cases s.freeList with
  | nil => rfl
  | cons d rest => simp [setInode]

lemma getInode_setInode_ne (s : FSState) (inum : Nat) (ino : Inode) (i' : Nat) (h : i' ≠ inum) :
    getInode (setInode s inum ino) i' = getInode s i' := by
  unfold getInode setInode
  simp only
  rw [List.getElem?_set_ne (fun hc => h hc.symm)]

lemma getInode_setInode_self (s : FSState) (inum : Nat) (ino : Inode) (h : inum < s.inodes.length) :
    getInode (setInode s inum ino) inum = ino := by
  unfold getInode setInode
  simp only
  rw [List.getElem?_set_self h]
  rfl

/-- Characterisation of `bfsAllocBlock`: either a no-op (free list empty or
inode slot out of range) or the front free block is mapped at `fbn` with the
size bumped to cover it. -/
lemma bfsAllocBlock_cases (s : FSState) (inum fbn : Nat) :
    (bfsAllocBlock s inum fbn = s ∧ s.freeList = []) ∨
      (∃ d rest, s.freeList = d :: rest ∧
        (bfsAllocBlock s inum fbn).freeList = rest ∧
        (∀ i', i' ≠ inum → getInode (bfsAllocBlock s inum fbn) i' = getInode s i') ∧
        ((inum < s.inodes.length →
          getInode (bfsAllocBlock s inum fbn) inum =
            { getInode s inum with
                blocks := (fbn, d) :: (getInode s inum).blocks,
                size := max (getInode s inum).size ((fbn + 1) * BYTESPERBLOCK) }) ∧
         (s.inodes.length ≤ inum →
          getInode (bfsAllocBlock s inum fbn) inum = getInode s inum))) := by
  unfold bfsAllocBlock
  cases hf : s.freeList with
  | nil => exact .inl ⟨rfl, rfl⟩
  | cons d rest =>
    refine .inr ⟨d, rest, rfl, rfl, ?_, ?_, ?_⟩
    · intro i' hi'
      show getInode { setInode s inum _ with freeList := rest } i' = getInode s i'
      have : getInode { setInode s inum ({ getInode s inum with
          blocks := (fbn, d) :: (getInode s inum).blocks,
          size := max (getInode s inum).size ((fbn + 1) * BYTESPERBLOCK) }) with
          freeList := rest } i' = getInode (setInode s inum _) i' := rfl
      rw [this, getInode_setInode_ne s inum _ i' hi']
    · intro hlen
      show getInode { setInode s inum _ with freeList := rest } inum = _
      have : getInode { setInode s inum ({ getInode s inum with
          blocks := (fbn, d) :: (getInode s inum).blocks,
          size := max (getInode s inum).size ((fbn + 1) * BYTESPERBLOCK) }) with
          freeList := rest } inum = getInode (setInode s inum _) inum := rfl
      rw [this, getInode_setInode_self s inum _ hlen]
    · intro hlen
      show getInode { setInode s inum _ with freeList := rest } inum = _
      unfold getInode setInode
      simp only
      rw [List.getElem?_set, if_pos rfl, if_neg (by omega), List.getElem?_len_le hlen]

/-! ### Size invariant and fetchEnsure lemmas -/

lemma getInode_eq_of_inodes_eq (s1 s2 : FSState) (h : s1.inodes = s2.inodes) (i : Nat) :
    getInode s1 i = getInode s2 i := by
  unfold getInode
  rw [h]

/-- Every mapped file block lies below the size high-water mark: a block
mapped at FBN `f` forces `size ≥ (f+1) * BYTESPERBLOCK`.  This is the shape
`bfsAllocBlock`'s size bookkeeping maintains, and it holds in every state
reachable from a freshly created file. -/
def SizeInv (s : FSState) : Prop :=
  ∀ inum pr, pr ∈ (getInode s inum).blocks →
    (pr.1 + 1) * BYTESPERBLOCK ≤ (getInode s inum).size

lemma SizeInv_of_inodes_eq (s1 s2 : FSState) (h : s1.inodes = s2.inodes)
    (hs : SizeInv s1) : SizeInv s2 := by
  intro inum pr hpr
  rw [← getInode_eq_of_inodes_eq s1 s2 h] at hpr ⊢
  exact hs inum pr hpr

lemma SizeInv_bfsAllocBlock (s : FSState) (inum fbn : Nat) (hs : SizeInv s) :
    SizeInv (bfsAllocBlock s inum fbn) := by
  rcases bfsAllocBlock_cases s inum fbn with ⟨heq, _⟩ | ⟨d, rest, _, _, hother, hself, hoob⟩
  · rw [heq]; exact hs
  · intro i' pr hpr
    by_cases hi' : i' = inum
    · subst hi'
      rcases lt_or_le i' s.inodes.length with hlen | hlen
      · rw [hself hlen] at hpr ⊢
        simp only [List.mem_cons] at hpr
        rcases hpr with hpr | hpr
        · subst hpr
          simp only
          exact le_max_right _ _
        · simp only
          exact le_trans (hs i' pr hpr) (le_max_left _ _)
      · rw [hoob hlen] at hpr ⊢
        exact hs i' pr hpr
    · rw [hother i' hi'] at hpr ⊢
      exact hs i' pr hpr

lemma fetchEnsure_eq_pos (s : FSState) (inum fbn : Nat) (h : bfsFbnToDbn s inum fbn = ENODBN) :
    fetchEnsure s inum fbn =
      (bioWrite (bfsAllocBlock s inum fbn)
         (bfsFbnToDbn (bfsAllocBlock s inum fbn) inum fbn) zeroBlock,
       bfsFbnToDbn (bfsAllocBlock s inum fbn) inum fbn) := by
  unfold fetchEnsure
  rw [if_pos (by simp [h])]

lemma fetchEnsure_eq_neg (s : FSState) (inum fbn : Nat) (h : bfsFbnToDbn s inum fbn ≠ ENODBN) :
    fetchEnsure s inum fbn = (s, bfsFbnToDbn s inum fbn) := by
  unfold fetchEnsure
  rw [if_neg (by simpa using h)]

lemma fetchEnsure_oft (s : FSState) (inum fbn : Nat) :
    (fetchEnsure s inum fbn).1.oft = s.oft := by
  by_cases h : bfsFbnToDbn s inum fbn = ENODBN
  · rw [fetchEnsure_eq_pos s inum fbn h, bioWrite_oft, bfsAllocBlock_oft]
  · rw [fetchEnsure_eq_neg s inum fbn h]

lemma fetchEnsure_inodes_length (s : FSState) (inum fbn : Nat) :
    (fetchEnsure s inum fbn).1.inodes.length = s.inodes.length := by
  by_cases h : bfsFbnToDbn s inum fbn = ENODBN
  · rw [fetchEnsure_eq_pos s inum fbn h, bioWrite_inodes, bfsAllocBlock_inodes_length]
  · rw [fetchEnsure_eq_neg s inum fbn h]

lemma fetchEnsure_freeList_length (s : FSState) (inum fbn : Nat) :
    s.freeList.length - 1 ≤ (fetchEnsure s inum fbn).1.freeList.length := by
  by_cases h : bfsFbnToDbn s inum fbn = ENODBN
  · rw [fetchEnsure_eq_pos s inum fbn h, bioWrite_freeList]
    rcases bfsAllocBlock_cases s inum fbn with ⟨heq, _⟩ | ⟨d, rest, hf, hf2, _⟩
    · rw [heq]; omega
    · rw [hf2, hf]; simp
  · rw [fetchEnsure_eq_neg s inum fbn h]
    dsimp only
    omega

lemma SizeInv_fetchEnsure (s : FSState) (inum fbn : Nat) (hs : SizeInv s) :
    SizeInv (fetchEnsure s inum fbn).1 := by
  by_cases h : bfsFbnToDbn s inum fbn = ENODBN
  · rw [fetchEnsure_eq_pos s inum fbn h]
    exact SizeInv_of_inodes_eq _ _ (bioWrite_inodes _ _ _).symm
      (SizeInv_bfsAllocBlock s inum fbn hs)
  · rw [fetchEnsure_eq_neg s inum fbn h]
    exact hs

lemma fetchEnsure_blocks (s : FSState) (inum fbn : Nat) :
    (∀ i', i' ≠ inum → getInode (fetchEnsure s inum fbn).1 i' = getInode s i') ∧
      (∃ M, (getInode (fetchEnsure s inum fbn).1 inum).blocks = M ++ (getInode s inum).blocks ∧
        ∀ pr ∈ M, pr.1 = fbn) ∧
      (getInode s inum).size ≤ (getInode (fetchEnsure s inum fbn).1 inum).size := by
  by_cases h : bfsFbnToDbn s inum fbn = ENODBN
  · rw [fetchEnsure_eq_pos s inum fbn h]
    have hgb : ∀ i, getInode (bioWrite (bfsAllocBlock s inum fbn)
        (bfsFbnToDbn (bfsAllocBlock s inum fbn) inum fbn) zeroBlock) i =
        getInode (bfsAllocBlock s inum fbn) i :=
      fun i => getInode_eq_of_inodes_eq _ _ (bioWrite_inodes _ _ _) i
    rcases bfsAllocBlock_cases s inum fbn with ⟨heq, _⟩ | ⟨d, rest, hf, hf2, hother, hself, hoob⟩
    · refine ⟨fun i' _ => by rw [hgb, heq], ⟨[], by rw [hgb, heq]; simp, by simp⟩, ?_⟩
      rw [hgb, heq]
    · refine ⟨fun i' hi' => by rw [hgb, hother i' hi'], ?_, ?_⟩
      · rcases lt_or_le inum s.inodes.length with hlen | hlen
        · exact ⟨[(fbn, d)], by rw [hgb, hself hlen]; simp, by simp⟩
        · exact ⟨[], by rw [hgb, hoob hlen]; simp, by simp⟩
      · rcases lt_or_le inum s.inodes.length with hlen | hlen
        · rw [hgb, hself hlen]
          simp only
          exact le_max_left _ _
        · rw [hgb, hoob hlen]
  · rw [fetchEnsure_eq_neg s inum fbn h]
    exact ⟨fun _ _ => rfl, ⟨[], by simp, by simp⟩, le_refl _⟩

lemma fetchEnsure_size_covers (s : FSState) (inum fbn : Nat)
    (hs : SizeInv s) (hlen : inum < s.inodes.length) (hfree : 1 ≤ s.freeList.length) :
    (fbn + 1) * BYTESPERBLOCK ≤ (getInode (fetchEnsure s inum fbn).1 inum).size := by
  by_cases h : bfsFbnToDbn s inum fbn = ENODBN
  · rw [fetchEnsure_eq_pos s inum fbn h]
    rw [getInode_eq_of_inodes_eq _ _ (bioWrite_inodes _ _ _)]
    rcases bfsAllocBlock_cases s inum fbn with ⟨_, hnil⟩ | ⟨d, rest, hf, hf2, hother, hself, hoob⟩
    · rw [hnil] at hfree; simp at hfree
    · rw [hself hlen]
      simp only
      exact le_max_right _ _
  · rw [fetchEnsure_eq_neg s inum fbn h]
    rcases hsome : assocFind (getInode s inum).blocks fbn with _ | d
    · exact absurd ((fbnToDbn_eq_ENODBN_iff s inum fbn).mpr hsome) h
    · exact hs inum (fbn, d) (assocFind_mem _ _ _ hsome)

/-! ### writeLoop unfolding and structural lemmas -/

lemma writeLoop_nil (fuel : Nat) (s : FSState) (inum fd ci fbn : Nat) (dbn : Int) :
    writeLoop fuel s inum fd [] ci fbn dbn = s := by
  cases fuel <;> simp [writeLoop]

lemma writeLoop_cons (fuel : Nat) (s : FSState) (inum fd : Nat) (rest : List Int)
    (hrest : rest ≠ []) (ci fbn : Nat) (dbn : Int) :
    writeLoop (fuel + 1) s inum fd rest ci fbn dbn =
      writeLoop fuel
        (fetchEnsure (seekCurOk (bioWrite s dbn
            (splice (bfsRead s inum fbn) ci (rest.take (chunkCount ci rest.length))))
          fd (chunkCount ci rest.length)) inum (fbn + 1)).1
        inum fd (rest.drop (chunkCount ci rest.length)) 0 (fbn + 1)
        (fetchEnsure (seekCurOk (bioWrite s dbn
            (splice (bfsRead s inum fbn) ci (rest.take (chunkCount ci rest.length))))
          fd (chunkCount ci rest.length)) inum (fbn + 1)).2 := by
  rw [writeLoop]
  rw [if_neg hrest]

lemma writeLoop_oft_map (fuel : Nat) : ∀ (s : FSState) (inum fd : Nat) (rest : List Int)
    (ci fbn : Nat) (dbn : Int),
    (writeLoop fuel s inum fd rest ci fbn dbn).oft.map OFTE.inum = s.oft.map OFTE.inum := by
  induction fuel with
  | zero => intro s inum fd rest ci fbn dbn; rfl
  | succ n ih =>
    intro s inum fd rest ci fbn dbn
    by_cases hrest : rest = []
    · subst hrest; rw [writeLoop_nil]
    · rw [writeLoop_cons n s inum fd rest hrest ci fbn dbn, ih]
      rw [fetchEnsure_oft, seekCurOk_oft_map, bioWrite_oft]

/-- The arithmetic shape of one loop chunk. -/
lemma chunkCount_cases (ci m : Nat) (hm : 1 ≤ m) :
    chunkCount ci m = m ∨ ci + chunkCount ci m = BYTESPERBLOCK ∨
      (BYTESPERBLOCK ≤ ci ∧ chunkCount ci m = 0) := by
  unfold chunkCount BYTESPERBLOCK
  split
  · split
    · omega
    · omega
  · omega

lemma chunkCount_le (ci m : Nat) : chunkCount ci m ≤ m := by
  unfold chunkCount
  split
  · split <;> omega
  · omega

lemma chunkCount_pos (ci m : Nat) (hci : ci < BYTESPERBLOCK) (hm : 1 ≤ m) :
    1 ≤ chunkCount ci m := by
  unfold BYTESPERBLOCK at hci
  unfold chunkCount BYTESPERBLOCK
  split
  · split <;> omega
  · omega

lemma writeLoop_blocks (fuel : Nat) : ∀ (s : FSState) (inum fd : Nat) (rest : List Int)
    (ci fbn : Nat) (dbn : Int),
    (∀ i', i' ≠ inum →
      getInode (writeLoop fuel s inum fd rest ci fbn dbn) i' = getInode s i') ∧
    (∃ L, (getInode (writeLoop fuel s inum fd rest ci fbn dbn) inum).blocks =
        L ++ (getInode s inum).blocks ∧
      ∀ pr ∈ L, fbn + 1 ≤ pr.1 ∧
        pr.1 ≤ fbn + (ci + rest.length + (BYTESPERBLOCK - 1)) / BYTESPERBLOCK) ∧
    (getInode s inum).size ≤ (getInode (writeLoop fuel s inum fd rest ci fbn dbn) inum).size := by
  induction fuel with
  | zero =>
    intro s inum fd rest ci fbn dbn
    exact ⟨fun _ _ => rfl, ⟨[], by simp [writeLoop], by simp⟩, le_refl _⟩
  | succ n ih =>
    intro s inum fd rest ci fbn dbn
    by_cases hrest : rest = []
    · subst hrest
      rw [writeLoop_nil]
      exact ⟨fun _ _ => rfl, ⟨[], by simp, by simp⟩, le_refl _⟩
    · have hm : 1 ≤ rest.length := by
        cases rest with
        | nil => exact absurd rfl hrest
        | cons a t => simp
      rw [writeLoop_cons n s inum fd rest hrest ci fbn dbn]
      set k := chunkCount ci rest.length with hk
      set B := seekCurOk (bioWrite s dbn
        (splice (bfsRead s inum fbn) ci (rest.take k))) fd k with hB
      have hBinodes : B.inodes = s.inodes := by
        rw [hB, seekCurOk_inodes, bioWrite_inodes]
      have hBget : ∀ i, getInode B i = getInode s i :=
        fun i => getInode_eq_of_inodes_eq _ _ hBinodes i
      obtain ⟨hfeo, ⟨M, hM, hMk⟩, hfes⟩ := fetchEnsure_blocks B inum (fbn + 1)
      obtain ⟨iho, ⟨L2, hL2, hL2b⟩, ihs⟩ :=
        ih (fetchEnsure B inum (fbn + 1)).1 inum fd (rest.drop k) 0 (fbn + 1)
          (fetchEnsure B inum (fbn + 1)).2
      refine ⟨?_, ⟨L2 ++ M, ?_, ?_⟩, ?_⟩
      · intro i' hi'
        rw [iho i' hi', hfeo i' hi', hBget i']
      · rw [hL2, hM, hBget inum, List.append_assoc]
      · have hBB : BYTESPERBLOCK = 512 := rfl
        have hkle : k ≤ rest.length := by rw [hk]; exact chunkCount_le ci rest.length
        intro pr hpr
        rcases List.mem_append.mp hpr with hpr | hpr
        · obtain ⟨hlow, hup⟩ := hL2b pr hpr
          rw [List.length_drop] at hup
          rcases chunkCount_cases ci rest.length hm with hc | hc | ⟨hc1, hc2⟩
          · rw [← hk] at hc
            rw [hBB] at hup ⊢
            constructor <;> omega
          · rw [← hk] at hc
            rw [hBB] at hup hc ⊢
            constructor <;> omega
          · rw [← hk] at hc2
            rw [hBB] at hup hc1 ⊢
            constructor <;> omega
        · have := hMk pr hpr
          rw [hBB]
          constructor <;> omega
      · calc (getInode s inum).size = (getInode B inum).size := (congrArg Inode.size (hBget inum)).symm
          _ ≤ (getInode (fetchEnsure B inum (fbn + 1)).1 inum).size := hfes
          _ ≤ _ := ihs

/-! ### Size growth through the write loop -/

lemma chunkCount_add_le (ci m : Nat) (hci : ci < BYTESPERBLOCK) :
    ci + chunkCount ci m ≤ BYTESPERBLOCK := by
  unfold BYTESPERBLOCK at hci
  unfold chunkCount BYTESPERBLOCK
  split
  · split <;> omega
  · omega

lemma writeLoop_size (fuel : Nat) : ∀ (s : FSState) (inum fd : Nat) (rest : List Int)
    (ci fbn : Nat) (dbn : Int),
    rest.length < fuel →
    ci < BYTESPERBLOCK →
    inum < s.inodes.length →
    SizeInv s →
    rest.length ≤ s.freeList.length →
    (fbn + 1) * BYTESPERBLOCK ≤ (getInode s inum).size →
    fbn * BYTESPERBLOCK + ci + rest.length ≤
      (getInode (writeLoop fuel s inum fd rest ci fbn dbn) inum).size := by
  induction fuel with
  | zero =>
    intro s inum fd rest ci fbn dbn hfuel
    omega
  | succ n ih =>
    intro s inum fd rest ci fbn dbn hfuel hci hlen hInv hfree hcover
    have hBB : BYTESPERBLOCK = 512 := rfl
    by_cases hrest : rest = []
    · subst hrest
      rw [writeLoop_nil]
      rw [hBB] at hci hcover ⊢
      simp only [List.length_nil]
      omega
    · have hm : 1 ≤ rest.length := by
        cases rest with
        | nil => exact absurd rfl hrest
        | cons a t => simp
      rw [writeLoop_cons n s inum fd rest hrest ci fbn dbn]
      set k := chunkCount ci rest.length with hk
      set B := seekCurOk (bioWrite s dbn
        (splice (bfsRead s inum fbn) ci (rest.take k))) fd k with hB
      have hBinodes : B.inodes = s.inodes := by
        rw [hB, seekCurOk_inodes, bioWrite_inodes]
      have hBfree : B.freeList = s.freeList := by
        rw [hB, seekCurOk_freeList, bioWrite_freeList]
      have hBInv : SizeInv B := SizeInv_of_inodes_eq s B hBinodes.symm hInv
      have hkpos : 1 ≤ k := by rw [hk]; exact chunkCount_pos ci rest.length hci hm
      have hkle : k ≤ rest.length := by rw [hk]; exact chunkCount_le ci rest.length
      have hkci : ci + k ≤ BYTESPERBLOCK := by rw [hk]; exact chunkCount_add_le ci rest.length hci
      have h1 : (rest.drop k).length < n := by
        rw [List.length_drop]
        omega
      have h2 : (0 : Nat) < BYTESPERBLOCK := by rw [hBB]; omega
      have h3 : inum < (fetchEnsure B inum (fbn + 1)).1.inodes.length := by
        rw [fetchEnsure_inodes_length, hBinodes]
        exact hlen
      have h4 : SizeInv (fetchEnsure B inum (fbn + 1)).1 := SizeInv_fetchEnsure B inum (fbn + 1) hBInv
      have h5 : (rest.drop k).length ≤ (fetchEnsure B inum (fbn + 1)).1.freeList.length := by
        have := fetchEnsure_freeList_length B inum (fbn + 1)
        rw [hBfree] at this
        rw [List.length_drop]
        omega
      have h6 : (fbn + 1 + 1) * BYTESPERBLOCK ≤
          (getInode (fetchEnsure B inum (fbn + 1)).1 inum).size := by
        apply fetchEnsure_size_covers B inum (fbn + 1) hBInv (by rw [hBinodes]; exact hlen)
        rw [hBfree]
        omega
      have hrec := ih (fetchEnsure B inum (fbn + 1)).1 inum fd (rest.drop k) 0 (fbn + 1)
        (fetchEnsure B inum (fbn + 1)).2 h1 h2 h3 h4 h5 h6
      rw [List.length_drop] at hrec
      rw [hBB] at hrec hkci ⊢
      omega

/-- `fsWrite` unfolded to its loop form. -/
lemma fsWrite_snd (s : FSState) (fd : Nat) (data : List Int) :
    (fsWrite s fd data).2 =
      writeLoop (data.length + 1)
        (fetchEnsure s (bfsFdToInum s fd) (bfsTell s fd / BYTESPERBLOCK)).1
        (bfsFdToInum s fd) fd data (bfsTell s fd % BYTESPERBLOCK)
        (bfsTell s fd / BYTESPERBLOCK)
        (fetchEnsure s (bfsFdToInum s fd) (bfsTell s fd / BYTESPERBLOCK)).2 := rfl

lemma fsWrite_oft_map (s : FSState) (fd : Nat) (data : List Int) :
    (fsWrite s fd data).2.oft.map OFTE.inum = s.oft.map OFTE.inum := by
  rw [fsWrite_snd, writeLoop_oft_map, fetchEnsure_oft]

lemma fsWrite_fdToInum (s : FSState) (fd fd2 : Nat) (data : List Int) :
    bfsFdToInum (fsWrite s fd data).2 fd2 = bfsFdToInum s fd2 := by
  rw [bfsFdToInum_eq_map, bfsFdToInum_eq_map, fsWrite_oft_map]

lemma fsWrite_size_ge (s : FSState) (fd : Nat) (data : List Int)
    (hlen : bfsFdToInum s fd < s.inodes.length)
    (hInv : SizeInv s)
    (hfree : data.length + 1 ≤ s.freeList.length) :
    bfsTell s fd + data.length ≤
      (getInode (fsWrite s fd data).2 (bfsFdToInum s fd)).size := by
  have hBB : BYTESPERBLOCK = 512 := rfl
  rw [fsWrite_snd]
  have hfe := fetchEnsure_freeList_length s (bfsFdToInum s fd) (bfsTell s fd / BYTESPERBLOCK)
  have h := writeLoop_size (data.length + 1)
    (fetchEnsure s (bfsFdToInum s fd) (bfsTell s fd / BYTESPERBLOCK)).1
    (bfsFdToInum s fd) fd data (bfsTell s fd % BYTESPERBLOCK)
    (bfsTell s fd / BYTESPERBLOCK)
    (fetchEnsure s (bfsFdToInum s fd) (bfsTell s fd / BYTESPERBLOCK)).2
    (by omega)
    (Nat.mod_lt _ (by rw [hBB]; omega))
    (by rw [fetchEnsure_inodes_length]; exact hlen)
    (SizeInv_fetchEnsure _ _ _ hInv)
    (by omega)
    (fetchEnsure_size_covers s (bfsFdToInum s fd) (bfsTell s fd / BYTESPERBLOCK) hInv hlen
      (by omega))
  have hdm := Nat.div_add_mod (bfsTell s fd) BYTESPERBLOCK
  rw [hBB] at h hdm ⊢
  omega

lemma fsWrite_size_mono (s : FSState) (fd : Nat) (data : List Int) (i : Nat) :
    (getInode s i).size ≤ (getInode (fsWrite s fd data).2 i).size := by
  rw [fsWrite_snd]
  by_cases hi : i = bfsFdToInum s fd
  · subst hi
    refine le_trans (fetchEnsure_blocks s (bfsFdToInum s fd)
      (bfsTell s fd / BYTESPERBLOCK)).2.2 ?_
    exact (writeLoop_blocks (data.length + 1) _ _ fd data _ _ _).2.2
  · rw [(writeLoop_blocks (data.length + 1) _ _ fd data _ _ _).1 i hi,
      (fetchEnsure_blocks s (bfsFdToInum s fd) (bfsTell s fd / BYTESPERBLOCK)).1 i hi]

/-! ### C9: size monotonicity under write -/

/-- A file of size 0 with descriptor cursor 600 and three free blocks. -/
def c9s : FSState := ⟨[⟨true, 0, []⟩], [], [⟨0, 600, 1⟩], [], [30, 31, 32]⟩

/-- C9.  A write of `data` at cursor `C` leaves the size at least
`C + data.length`, and no write ever decreases the size.  The hypotheses
say the descriptor is open on a real inode, the state satisfies the size
invariant maintained by `bfsAllocBlock`, and the disk holds enough free
blocks for the write to complete its allocations (without them the write
still returns 0 but silently allocates nothing, see `C3`). -/
theorem C9_size_monotone (s : FSState) (fd : Nat) (data : List Int) (e : OFTE)
    (hfd : s.oft[fd]? = some e)
    (hlen : e.inum < s.inodes.length)
    (hInv : SizeInv s)
    (hfree : data.length + 1 ≤ s.freeList.length) :
    bfsTell s fd + data.length ≤ fsSize (fsWrite s fd data).2 fd ∧
      fsSize s fd ≤ fsSize (fsWrite s fd data).2 fd := by
  have hinum : bfsFdToInum s fd = e.inum := by simp [bfsFdToInum, hfd]
  unfold fsSize bfsGetSize
  rw [fsWrite_fdToInum]
  constructor
  · exact fsWrite_size_ge s fd data (by rw [hinum]; exact hlen) hInv hfree
  · exact fsWrite_size_mono s fd data (bfsFdToInum s fd)

/-- C9 witness: writing one byte at cursor 600 on an empty file raises the
size to at least 601 (in fact to 1536: blocks 1 and 2 get allocated). -/
theorem C9_size_monotone_witness :
    bfsTell c9s 0 + [(9 : Int)].length ≤ fsSize (fsWrite c9s 0 [9]).2 0 ∧
      fsSize c9s 0 ≤ fsSize (fsWrite c9s 0 [9]).2 0 :=
  C9_size_monotone c9s 0 [9] ⟨0, 600, 1⟩ (by rfl) (by decide)
    (by
      intro i pr hpr
      rcases i with _ | i
      · simp [getInode, c9s] at hpr
      · simp [getInode, c9s] at hpr)
    (by decide)

/-! ### C4: the allocation range of a write -/

/-- C4 amended.  A write at cursor `c` allocates blocks only in the FBN range
from `c / BYTESPERBLOCK` up to at most one block past the range covering the
written bytes: every block mapped after the call was either already mapped
before, or belongs to the written file and has an FBN between
`c / BYTESPERBLOCK` and `c / BYTESPERBLOCK + (c % BYTESPERBLOCK + numb +
BYTESPERBLOCK - 1) / BYTESPERBLOCK`.  Unlike the original claim, the
cursor's block is allocated even by a 0-byte write (see the counterexample),
and the block immediately after the last byte written may also be
allocated. -/
theorem C4_alloc_range_amended (s : FSState) (fd : Nat) (data : List Int) (i' fbn d : Nat)
    (h : (fbn, d) ∈ (getInode (fsWrite s fd data).2 i').blocks) :
    (fbn, d) ∈ (getInode s i').blocks ∨
      (i' = bfsFdToInum s fd ∧ bfsTell s fd / BYTESPERBLOCK ≤ fbn ∧
        fbn ≤ bfsTell s fd / BYTESPERBLOCK +
          (bfsTell s fd % BYTESPERBLOCK + data.length + (BYTESPERBLOCK - 1)) / BYTESPERBLOCK) := by
  rw [fsWrite_snd] at h
  by_cases hi : i' = bfsFdToInum s fd
  · subst hi
    obtain ⟨_, ⟨L, hL, hLb⟩, _⟩ := writeLoop_blocks (data.length + 1)
      (fetchEnsure s (bfsFdToInum s fd) (bfsTell s fd / BYTESPERBLOCK)).1
      (bfsFdToInum s fd) fd data
      (bfsTell s fd % BYTESPERBLOCK) (bfsTell s fd / BYTESPERBLOCK)
      (fetchEnsure s (bfsFdToInum s fd) (bfsTell s fd / BYTESPERBLOCK)).2
    rw [hL] at h
    rcases List.mem_append.mp h with h | h
    · right
      obtain ⟨hlow, hup⟩ := hLb (fbn, d) h
      have hlow2 : bfsTell s fd / BYTESPERBLOCK + 1 ≤ fbn := hlow
      have hup2 : fbn ≤ bfsTell s fd / BYTESPERBLOCK +
          (bfsTell s fd % BYTESPERBLOCK + data.length + (BYTESPERBLOCK - 1)) / BYTESPERBLOCK :=
        hup
      exact ⟨rfl, by omega, hup2⟩
    · obtain ⟨_, ⟨M, hM, hMk⟩, _⟩ :=
        fetchEnsure_blocks s (bfsFdToInum s fd) (bfsTell s fd / BYTESPERBLOCK)
      rw [hM] at h
      rcases List.mem_append.mp h with h | h
      · right
        have hfb : fbn = bfsTell s fd / BYTESPERBLOCK := hMk (fbn, d) h
        have hBB : BYTESPERBLOCK = 512 := rfl
        refine ⟨rfl, by omega, ?_⟩
        rw [hBB] at hfb ⊢
        omega
      · exact .inl h
  · rw [(writeLoop_blocks (data.length + 1)
        (fetchEnsure s (bfsFdToInum s fd) (bfsTell s fd / BYTESPERBLOCK)).1
        (bfsFdToInum s fd) fd data (bfsTell s fd % BYTESPERBLOCK)
        (bfsTell s fd / BYTESPERBLOCK)
        (fetchEnsure s (bfsFdToInum s fd) (bfsTell s fd / BYTESPERBLOCK)).2).1 i' hi,
      (fetchEnsure_blocks s (bfsFdToInum s fd) (bfsTell s fd / BYTESPERBLOCK)).1 i' hi] at h
    exact .inl h

/-- C4 witness: writing one byte at cursor 0 allocates block 1 (the overshoot
block), which lies inside the amended range [0, 1]. -/
theorem C4_alloc_range_witness :
    ((1, 21) ∈ (getInode c4s 0).blocks ∨
      ((0 : Nat) = bfsFdToInum c4s 0 ∧ bfsTell c4s 0 / BYTESPERBLOCK ≤ 1 ∧
        1 ≤ bfsTell c4s 0 / BYTESPERBLOCK +
          (bfsTell c4s 0 % BYTESPERBLOCK + [(9 : Int)].length + (BYTESPERBLOCK - 1)) /
            BYTESPERBLOCK)) :=
  C4_alloc_range_amended c4s 0 [9] 0 1 21 (by decide)

/-! ### Disk preservation through the write loop -/

lemma fetchEnsure_disk_pres (s : FSState) (inum fbn : Nat) (dT : Int)
    (hT : 0 ≤ dT)
    (hblocks : ∀ i' pr, pr ∈ (getInode s i').blocks → fbn ≤ pr.1 → ((pr.2 : Int) ≠ dT))
    (hfreeT : ∀ x ∈ s.freeList, ((x : Int) ≠ dT)) :
    diskFind (fetchEnsure s inum fbn).1.disk dT = diskFind s.disk dT ∧
      (fetchEnsure s inum fbn).2 ≠ dT ∧
      (∀ i' pr, pr ∈ (getInode (fetchEnsure s inum fbn).1 i').blocks →
        fbn ≤ pr.1 → ((pr.2 : Int) ≠ dT)) ∧
      (∀ x ∈ (fetchEnsure s inum fbn).1.freeList, ((x : Int) ≠ dT)) := by
  by_cases h : bfsFbnToDbn s inum fbn = ENODBN
  · rw [fetchEnsure_eq_pos s inum fbn h]
    dsimp only
    rcases bfsAllocBlock_cases s inum fbn with ⟨heq, hnil⟩ | ⟨d, rest, hf, hf2, hother, hself, hoob⟩
    · rw [heq, h]
      have hEN : ENODBN ≠ dT := by rw [ENODBN]; omega
      refine ⟨?_, hEN, ?_, ?_⟩
      · rw [bioWrite_disk]
        exact diskFind_cons_ne _ _ _ _ hEN
      · intro i' pr hpr hge
        rw [getInode_eq_of_inodes_eq _ s (by rw [bioWrite_inodes])] at hpr
        exact hblocks i' pr hpr hge
      · intro x hx
        rw [bioWrite_freeList] at hx
        exact hfreeT x hx
    · have hdT : ((d : Int)) ≠ dT := hfreeT d (by rw [hf]; exact List.mem_cons_self _ _)
      have hgetA : ∀ i, getInode (bioWrite (bfsAllocBlock s inum fbn)
          (bfsFbnToDbn (bfsAllocBlock s inum fbn) inum fbn) zeroBlock) i =
          getInode (bfsAllocBlock s inum fbn) i :=
        fun i => getInode_eq_of_inodes_eq _ _ (bioWrite_inodes _ _ _) i
      have hblocksA : ∀ i' pr, pr ∈ (getInode (bfsAllocBlock s inum fbn) i').blocks →
          fbn ≤ pr.1 → ((pr.2 : Int) ≠ dT) := by
        intro i' pr hpr hge
        by_cases hi' : i' = inum
        · subst hi'
          rcases lt_or_le i' s.inodes.length with hl | hl
          · rw [hself hl] at hpr
            simp only [List.mem_cons] at hpr
            rcases hpr with hpr | hpr
            · rw [hpr]
              exact hdT
            · exact hblocks i' pr hpr hge
          · rw [hoob hl] at hpr
            exact hblocks i' pr hpr hge
        · rw [hother i' hi'] at hpr
          exact hblocks i' pr hpr hge
      have hdbnA : bfsFbnToDbn (bfsAllocBlock s inum fbn) inum fbn ≠ dT := by
        cases hres : assocFind (getInode (bfsAllocBlock s inum fbn) inum).blocks fbn with
        | none =>
          rw [(fbnToDbn_eq_ENODBN_iff _ inum fbn).mpr hres, ENODBN]
          omega
        | some d2 =>
          rw [fbnToDbn_some _ inum fbn d2 hres]
          exact hblocksA inum (fbn, d2) (assocFind_mem _ _ _ hres) (le_refl fbn)
      refine ⟨?_, hdbnA, ?_, ?_⟩
      · rw [bioWrite_disk, bfsAllocBlock_disk]
        exact diskFind_cons_ne _ _ _ _ hdbnA
      · intro i' pr hpr hge
        rw [hgetA] at hpr
        exact hblocksA i' pr hpr hge
      · intro x hx
        rw [bioWrite_freeList, hf2] at hx
        exact hfreeT x (by rw [hf]; exact List.mem_cons_of_mem _ hx)
  · rw [fetchEnsure_eq_neg s inum fbn h]
    dsimp only
    refine ⟨rfl, ?_, hblocks, hfreeT⟩
    cases hres : assocFind (getInode s inum).blocks fbn with
    | none => exact absurd ((fbnToDbn_eq_ENODBN_iff s inum fbn).mpr hres) h
    | some d2 =>
      show bfsFbnToDbn s inum fbn ≠ dT
      rw [fbnToDbn_some s inum fbn d2 hres]
      exact hblocks inum (fbn, d2) (assocFind_mem _ _ _ hres) (le_refl fbn)

lemma writeLoop_disk_pres (fuel : Nat) : ∀ (s : FSState) (inum fd : Nat) (rest : List Int)
    (ci fbn : Nat) (dbn : Int) (dT : Int),
    0 ≤ dT →
    dbn ≠ dT →
    (∀ i' pr, pr ∈ (getInode s i').blocks → fbn + 1 ≤ pr.1 → ((pr.2 : Int) ≠ dT)) →
    (∀ x ∈ s.freeList, ((x : Int) ≠ dT)) →
    diskFind (writeLoop fuel s inum fd rest ci fbn dbn).disk dT = diskFind s.disk dT := by
  induction fuel with
  | zero => intro s inum fd rest ci fbn dbn dT _ _ _ _; rfl
  | succ n ih =>
    intro s inum fd rest ci fbn dbn dT hT hdbn hblocks hfreeT
    by_cases hrest : rest = []
    · subst hrest; rw [writeLoop_nil]
    · rw [writeLoop_cons n s inum fd rest hrest ci fbn dbn]
      set k := chunkCount ci rest.length with hk
      set A := bioWrite s dbn (splice (bfsRead s inum fbn) ci (rest.take k)) with hA
      set B := seekCurOk A fd k with hB
      have hBdisk : B.disk = A.disk := by rw [hB, seekCurOk_disk]
      have hBinodes : B.inodes = s.inodes := by rw [hB, seekCurOk_inodes, hA, bioWrite_inodes]
      have hBfree : B.freeList = s.freeList := by
        rw [hB, seekCurOk_freeList, hA, bioWrite_freeList]
      have hblocksB : ∀ i' pr, pr ∈ (getInode B i').blocks → fbn + 1 ≤ pr.1 →
          ((pr.2 : Int) ≠ dT) := by
        intro i' pr hpr hge
        rw [getInode_eq_of_inodes_eq B s hBinodes] at hpr
        exact hblocks i' pr hpr hge
      have hfreeB : ∀ x ∈ B.freeList, ((x : Int) ≠ dT) := by
        intro x hx
        rw [hBfree] at hx
        exact hfreeT x hx
      obtain ⟨hd1, hd2, hd3, hd4⟩ := fetchEnsure_disk_pres B inum (fbn + 1) dT hT hblocksB hfreeB
      rw [ih (fetchEnsure B inum (fbn + 1)).1 inum fd (rest.drop k) 0 (fbn + 1)
        (fetchEnsure B inum (fbn + 1)).2 dT hT hd2
        (fun i' pr hpr hge => hd3 i' pr hpr (by omega)) hd4]
      rw [hd1, hBdisk, hA, bioWrite_disk]
      exact diskFind_cons_ne _ _ _ _ hdbn

/-! ### A one-byte read of a zero-leading block -/

lemma zeroBlock_take_one : zeroBlock.take 1 = [0] := by
  unfold zeroBlock BYTESPERBLOCK
  rw [List.take_replicate]
  rfl

lemma splice_take_one (blk : List Int) (ci : Nat) (src : List Int)
    (h1 : 1 ≤ ci) (h2 : 1 ≤ blk.length) :
    (splice blk ci src).take 1 = blk.take 1 := by
  unfold splice
  rw [List.append_assoc, List.take_append_of_le_length (by rw [List.length_take]; omega),
    List.take_take]
  congr 1
  omega

lemma chunkCount_one (ci : Nat) (h : ci < BYTESPERBLOCK) : chunkCount ci 1 = 1 := by
  unfold BYTESPERBLOCK at h
  unfold chunkCount BYTESPERBLOCK
  split
  · split <;> omega
  · omega

lemma readSrcIdx_eq_zero (ci : Nat) : readSrcIdx ci = 0 := by
  unfold readSrcIdx
  split
  · rfl
  · omega

lemma readLoop_one (s : FSState) (inum fd cursorIdx fbn : Nat)
    (hci : cursorIdx < BYTESPERBLOCK)
    (hsz : fbn * BYTESPERBLOCK ≤ fsSize s fd) :
    readLoop (1 + 1) s inum fd 1 cursorIdx fbn [] =
      some ((bfsRead s inum fbn).take 1, fbn + 1) := by
  rw [readLoop]
  rw [if_neg (by omega : ¬ (1 = 0))]
  rw [if_neg (not_lt.mpr hsz)]
  rw [chunkCount_one cursorIdx hci, readSrcIdx_eq_zero, List.drop_zero]
  rw [show (1 : Nat) - 1 = 0 from rfl]
  rw [readLoop]
  rw [if_pos rfl]
  rw [List.nil_append]

lemma fsRead_one_byte (s : FSState) (fd : Nat) (buf : List Int)
    (hhead : (bfsRead s (bfsFdToInum s fd) (bfsTell s fd / BYTESPERBLOCK)).take 1 = [0])
    (hsz : (bfsTell s fd / BYTESPERBLOCK) * BYTESPERBLOCK ≤ fsSize s fd) :
    readRet (fsRead s fd 1 buf) = 1 ∧ readBufOut (fsRead s fd 1 buf) = 0 :: buf.drop 1 := by
  have hloop := readLoop_one s (bfsFdToInum s fd) fd (bfsTell s fd % BYTESPERBLOCK)
    (bfsTell s fd / BYTESPERBLOCK)
    (Nat.mod_lt _ (by rw [show BYTESPERBLOCK = 512 from rfl]; omega)) hsz
  rw [hhead] at hloop
  simp only [fsRead, hloop]
  rw [show (([(0 : Int)].headD 0 != 0) = false) from rfl]
  simp only [Bool.false_eq_true, if_false]
  rw [fsSeek_cur_eq s fd ((1 : Nat) : Int) (by omega)]
  simp only [readRet, readBufOut]
  constructor
  · rfl
  · rw [show (((1 : Nat) : Int)).toNat = 1 from rfl]
    rfl

/-! ### The content of the write's starting block -/

lemma natCast_ne_ENODBN (d : Nat) : ((d : Int)) ≠ ENODBN := by
  rw [ENODBN]
  omega

lemma bfsRead_mapped (s : FSState) (inum fbn d : Nat)
    (h : assocFind (getInode s inum).blocks fbn = some d) :
    bfsRead s inum fbn = (diskFind s.disk (d : Int)).getD zeroBlock := by
  unfold bfsRead
  rw [fbnToDbn_some s inum fbn d h,
    if_neg (by simpa using natCast_ne_ENODBN d)]

lemma bfsRead_unmapped (s : FSState) (inum fbn : Nat)
    (h : bfsFbnToDbn s inum fbn = ENODBN) : bfsRead s inum fbn = zeroBlock := by
  unfold bfsRead
  rw [h]
  simp

lemma one_le_zeroBlock_length : 1 ≤ zeroBlock.length := by
  unfold zeroBlock BYTESPERBLOCK
  simp

lemma unmapped_of_ge_size (s : FSState) (inum p : Nat) (hInv : SizeInv s)
    (hp : (getInode s inum).size ≤ p) :
    bfsFbnToDbn s inum (p / BYTESPERBLOCK) = ENODBN := by
  rw [fbnToDbn_eq_ENODBN_iff]
  cases hres : assocFind (getInode s inum).blocks (p / BYTESPERBLOCK) with
  | none => rfl
  | some d =>
    exfalso
    have hs := hInv inum (p / BYTESPERBLOCK, d) (assocFind_mem _ _ _ hres)
    have hBB : BYTESPERBLOCK = 512 := rfl
    rw [hBB] at hs
    have hdm := Nat.div_add_mod p 512
    have hm : p % 512 < 512 := Nat.mod_lt _ (by omega)
    simp only at hs
    omega

lemma fsWrite_below_cursor_unmapped (s : FSState) (fd : Nat) (data : List Int) (q : Nat)
    (hq : q < bfsTell s fd / BYTESPERBLOCK)
    (hunm : bfsFbnToDbn s (bfsFdToInum s fd) q = ENODBN) :
    bfsFbnToDbn (fsWrite s fd data).2 (bfsFdToInum s fd) q = ENODBN := by
  rw [fbnToDbn_eq_ENODBN_iff] at hunm ⊢
  rw [fsWrite_snd]
  obtain ⟨_, ⟨L, hL, hLb⟩, _⟩ := writeLoop_blocks (data.length + 1)
    (fetchEnsure s (bfsFdToInum s fd) (bfsTell s fd / BYTESPERBLOCK)).1
    (bfsFdToInum s fd) fd data (bfsTell s fd % BYTESPERBLOCK)
    (bfsTell s fd / BYTESPERBLOCK)
    (fetchEnsure s (bfsFdToInum s fd) (bfsTell s fd / BYTESPERBLOCK)).2
  obtain ⟨_, ⟨M, hM, hMk⟩, _⟩ :=
    fetchEnsure_blocks s (bfsFdToInum s fd) (bfsTell s fd / BYTESPERBLOCK)
  rw [hL, hM]
  rw [assocFind_append_skip L _ q (fun pr hpr => by have := (hLb pr hpr).1; omega)]
  rw [assocFind_append_skip M _ q (fun pr hpr => by have := hMk pr hpr; omega)]
  exact hunm

lemma fsWrite_gap_block_zero (s : FSState) (fd : Nat) (data : List Int)
    (hlen : bfsFdToInum s fd < s.inodes.length)
    (hNodup : s.freeList.Nodup)
    (hOwn : ∀ i' pr, pr ∈ (getInode s i').blocks → pr.2 ∉ s.freeList)
    (hfree : 1 ≤ s.freeList.length)
    (hunm : bfsFbnToDbn s (bfsFdToInum s fd) (bfsTell s fd / BYTESPERBLOCK) = ENODBN)
    (hci : data = [] ∨ 0 < bfsTell s fd % BYTESPERBLOCK) :
    (bfsRead (fsWrite s fd data).2 (bfsFdToInum s fd)
      (bfsTell s fd / BYTESPERBLOCK)).take 1 = [0] := by
  obtain ⟨d, rest, hf⟩ : ∃ d rest, s.freeList = d :: rest := by
    cases hfl : s.freeList with
    | nil => rw [hfl] at hfree; simp at hfree
    | cons d rest => exact ⟨d, rest, rfl⟩
  have hdrest : d ∉ rest := (List.nodup_cons.mp (hf ▸ hNodup)).1
  rcases bfsAllocBlock_cases s (bfsFdToInum s fd) (bfsTell s fd / BYTESPERBLOCK) with
    ⟨_, hnil⟩ | ⟨d0, rest0, hf0, hf0b, hother0, hself0, _⟩
  · rw [hnil] at hf; cases hf
  · rw [hf] at hf0
    injection hf0 with hd0 hrest0
    subst hd0
    subst hrest0
    have hblocksAl : (getInode (bfsAllocBlock s (bfsFdToInum s fd)
        (bfsTell s fd / BYTESPERBLOCK)) (bfsFdToInum s fd)).blocks =
        (bfsTell s fd / BYTESPERBLOCK, d) :: (getInode s (bfsFdToInum s fd)).blocks := by
      rw [hself0 hlen]
    have hdA : bfsFbnToDbn (bfsAllocBlock s (bfsFdToInum s fd)
        (bfsTell s fd / BYTESPERBLOCK)) (bfsFdToInum s fd)
        (bfsTell s fd / BYTESPERBLOCK) = (d : Int) := by
      apply fbnToDbn_some
      rw [hblocksAl]
      exact assocFind_cons_self _ _ _
    rw [fsWrite_snd, fetchEnsure_eq_pos s (bfsFdToInum s fd)
      (bfsTell s fd / BYTESPERBLOCK) hunm]
    dsimp only
    rw [hdA]
    set sAl := bfsAllocBlock s (bfsFdToInum s fd) (bfsTell s fd / BYTESPERBLOCK) with hsAl
    set s0 := bioWrite sAl (d : Int) zeroBlock with hs0
    have hblocks0 : (getInode s0 (bfsFdToInum s fd)).blocks =
        (bfsTell s fd / BYTESPERBLOCK, d) :: (getInode s (bfsFdToInum s fd)).blocks := by
      rw [hs0, getInode_eq_of_inodes_eq _ sAl (bioWrite_inodes _ _ _)]
      exact hblocksAl
    have hother00 : ∀ i', i' ≠ bfsFdToInum s fd →
        getInode s0 i' = getInode s i' := by
      intro i' hi'
      rw [hs0, getInode_eq_of_inodes_eq _ sAl (bioWrite_inodes _ _ _)]
      exact hother0 i' hi'
    have hdisk0 : s0.disk = ((d : Int), zeroBlock) :: s.disk := by
      rw [hs0, bioWrite_disk, hsAl, bfsAllocBlock_disk]
    have hfree0 : s0.freeList = rest := by
      rw [hs0, bioWrite_freeList, hsAl, hf0b]
    by_cases hdata : data = []
    · subst hdata
      rw [writeLoop_nil]
      rw [bfsRead_mapped s0 (bfsFdToInum s fd) (bfsTell s fd / BYTESPERBLOCK) d
        (by rw [hblocks0]; exact assocFind_cons_self _ _ _)]
      rw [hdisk0, diskFind_cons_self]
      exact zeroBlock_take_one
    · have hci2 : 0 < bfsTell s fd % BYTESPERBLOCK := hci.resolve_left hdata
      rw [writeLoop_cons data.length s0 (bfsFdToInum s fd) fd data hdata
        (bfsTell s fd % BYTESPERBLOCK) (bfsTell s fd / BYTESPERBLOCK) (d : Int)]
      have hread0 : bfsRead s0 (bfsFdToInum s fd) (bfsTell s fd / BYTESPERBLOCK) = zeroBlock := by
        rw [bfsRead_mapped s0 (bfsFdToInum s fd) (bfsTell s fd / BYTESPERBLOCK) d
          (by rw [hblocks0]; exact assocFind_cons_self _ _ _), hdisk0, diskFind_cons_self]
        rfl
      rw [hread0]
      set k := chunkCount (bfsTell s fd % BYTESPERBLOCK) data.length with hk
      set W := splice zeroBlock (bfsTell s fd % BYTESPERBLOCK) (data.take k) with hW
      set A := bioWrite s0 (d : Int) W with hA
      set B := seekCurOk A fd k with hB
      have hBinodes : B.inodes = s0.inodes := by
        rw [hB, seekCurOk_inodes, hA, bioWrite_inodes]
      have hBdisk : B.disk = ((d : Int), W) :: s0.disk := by
        rw [hB, seekCurOk_disk, hA, bioWrite_disk]
      have hBfree : B.freeList = rest := by
        rw [hB, seekCurOk_freeList, hA, bioWrite_freeList, hfree0]
      have hblocksB : (getInode B (bfsFdToInum s fd)).blocks =
          (bfsTell s fd / BYTESPERBLOCK, d) :: (getInode s (bfsFdToInum s fd)).blocks := by
        rw [getInode_eq_of_inodes_eq B s0 hBinodes]
        exact hblocks0
      have hotherB : ∀ i', i' ≠ bfsFdToInum s fd → getInode B i' = getInode s i' := by
        intro i' hi'
        rw [getInode_eq_of_inodes_eq B s0 hBinodes]
        exact hother00 i' hi'
      have hOwnInt : ∀ i' pr, pr ∈ (getInode s i').blocks → ((pr.2 : Int) ≠ (d : Int)) := by
        intro i' pr hpr hcast
        exact hOwn i' pr hpr (by rw [hf, Nat.cast_inj.mp hcast]; exact List.mem_cons_self _ _)
      have hblocksDP : ∀ i' pr, pr ∈ (getInode B i').blocks →
          (bfsTell s fd / BYTESPERBLOCK) + 1 ≤ pr.1 → ((pr.2 : Int) ≠ (d : Int)) := by
        intro i' pr hpr hge
        by_cases hi' : i' = bfsFdToInum s fd
        · subst hi'
          rw [hblocksB] at hpr
          rcases List.mem_cons.mp hpr with hpr | hpr
          · exfalso
            subst hpr
            have hb1 : ((bfsTell s fd / BYTESPERBLOCK, d)).1 = bfsTell s fd / BYTESPERBLOCK := rfl
            omega
          · exact hOwnInt _ pr hpr
        · rw [hotherB i' hi'] at hpr
          exact hOwnInt i' pr hpr
      have hfreeDP : ∀ x ∈ B.freeList, ((x : Int) ≠ (d : Int)) := by
        intro x hx hcast
        rw [hBfree] at hx
        exact hdrest (Nat.cast_inj.mp hcast ▸ hx)
      obtain ⟨hd1, hd2, hd3, hd4⟩ := fetchEnsure_disk_pres B (bfsFdToInum s fd)
        (bfsTell s fd / BYTESPERBLOCK + 1) (d : Int) (Int.ofNat_nonneg d) hblocksDP hfreeDP
      obtain ⟨_, ⟨L, hL, hLb⟩, _⟩ := writeLoop_blocks data.length
        (fetchEnsure B (bfsFdToInum s fd) (bfsTell s fd / BYTESPERBLOCK + 1)).1
        (bfsFdToInum s fd) fd (data.drop k) 0 (bfsTell s fd / BYTESPERBLOCK + 1)
        (fetchEnsure B (bfsFdToInum s fd) (bfsTell s fd / BYTESPERBLOCK + 1)).2
      obtain ⟨_, ⟨M, hM, hMk⟩, _⟩ :=
        fetchEnsure_blocks B (bfsFdToInum s fd) (bfsTell s fd / BYTESPERBLOCK + 1)
      have hfbnFinal : assocFind (getInode (writeLoop data.length
          (fetchEnsure B (bfsFdToInum s fd) (bfsTell s fd / BYTESPERBLOCK + 1)).1
          (bfsFdToInum s fd) fd (data.drop k) 0 (bfsTell s fd / BYTESPERBLOCK + 1)
          (fetchEnsure B (bfsFdToInum s fd) (bfsTell s fd / BYTESPERBLOCK + 1)).2)
          (bfsFdToInum s fd)).blocks (bfsTell s fd / BYTESPERBLOCK) = some d := by
        rw [hL, hM, hblocksB]
        rw [assocFind_append_skip L _ (bfsTell s fd / BYTESPERBLOCK)
          (fun pr hpr => by have := (hLb pr hpr).1; omega)]
        rw [assocFind_append_skip M _ (bfsTell s fd / BYTESPERBLOCK)
          (fun pr hpr => by have := hMk pr hpr; omega)]
        exact assocFind_cons_self _ _ _
      have hdiskFinal : diskFind (writeLoop data.length
          (fetchEnsure B (bfsFdToInum s fd) (bfsTell s fd / BYTESPERBLOCK + 1)).1
          (bfsFdToInum s fd) fd (data.drop k) 0 (bfsTell s fd / BYTESPERBLOCK + 1)
          (fetchEnsure B (bfsFdToInum s fd) (bfsTell s fd / BYTESPERBLOCK + 1)).2).disk
          ((d : Int)) = some W := by
        rw [writeLoop_disk_pres data.length
          (fetchEnsure B (bfsFdToInum s fd) (bfsTell s fd / BYTESPERBLOCK + 1)).1
          (bfsFdToInum s fd) fd (data.drop k) 0 (bfsTell s fd / BYTESPERBLOCK + 1)
          (fetchEnsure B (bfsFdToInum s fd) (bfsTell s fd / BYTESPERBLOCK + 1)).2
          (d : Int) (Int.ofNat_nonneg d) hd2
          (fun i' pr hpr hge => hd3 i' pr hpr (by omega)) hd4]
        rw [hd1, hBdisk, diskFind_cons_self]
      rw [bfsRead_mapped _ _ _ d hfbnFinal, hdiskFinal, Option.getD_some, hW]
      exact splice_take_one zeroBlock _ _ hci2 one_le_zeroBlock_length

/-! ### C8: hole zero-fill -/

lemma bfsRead_congr (s1 s2 : FSState) (hi : s1.inodes = s2.inodes) (hd : s1.disk = s2.disk)
    (inum fbn : Nat) : bfsRead s1 inum fbn = bfsRead s2 inum fbn := by
  unfold bfsRead bfsFbnToDbn
  rw [getInode_eq_of_inodes_eq s1 s2 hi, hd]

lemma fsSize_setCursAt (s : FSState) (i v fd : Nat) :
    fsSize (setCursAt s i v) fd = fsSize s fd := by
  unfold fsSize bfsGetSize
  rw [bfsFdToInum_setCursAt, getInode_eq_of_inodes_eq _ s (setCursAt_inodes s i v)]

/-- C8.  Writing at a cursor past the current size zero-fills every newly
allocated block before the partial write is applied (fs.c lines 229-238 and
269-280), so a subsequent 1-byte read at any gap position `p` (at or past
the old size, before the write cursor) returns 1 and stores a zero byte in
the caller's buffer.  The hypotheses: the descriptor is open on a real
inode, the size invariant of `bfsAllocBlock` holds, the free list has no
duplicates and is disjoint from all mapped blocks (no double ownership),
and there are enough free blocks for the write. -/
theorem C8_hole_zero_fill (s : FSState) (fd p : Nat) (data buf : List Int) (e : OFTE)
    (hfd : s.oft[fd]? = some e)
    (hlen : e.inum < s.inodes.length)
    (hInv : SizeInv s)
    (hNodup : s.freeList.Nodup)
    (hOwn : ∀ i' pr, pr ∈ (getInode s i').blocks → pr.2 ∉ s.freeList)
    (hfree : data.length + 1 ≤ s.freeList.length)
    (hgap1 : fsSize s fd ≤ p)
    (hgap2 : p < bfsTell s fd) :
    ∃ s2, fsSeek (fsWrite s fd data).2 fd (p : Int) SEEK_SET = .ok (0, s2) ∧
      readRet (fsRead s2 fd 1 buf) = 1 ∧
      readBufOut (fsRead s2 fd 1 buf) = 0 :: buf.drop 1 := by
  have hBB : BYTESPERBLOCK = 512 := rfl
  have hinum : bfsFdToInum s fd = e.inum := by simp [bfsFdToInum, hfd]
  have hlen2 : bfsFdToInum s fd < s.inodes.length := by rw [hinum]; exact hlen
  set s1 := (fsWrite s fd data).2 with hs1
  have hfd1inum : bfsFdToInum s1 fd = bfsFdToInum s fd := by
    rw [hs1]
    exact fsWrite_fdToInum s fd fd data
  have hoftmap : s1.oft.map OFTE.inum = s.oft.map OFTE.inum := by
    rw [hs1]
    exact fsWrite_oft_map s fd data
  obtain ⟨e1, hfd1, hfd1i⟩ : ∃ e1, s1.oft[fd]? = some e1 ∧ e1.inum = e.inum := by
    have h1 : (s1.oft.map OFTE.inum)[fd]? = some e.inum := by
      rw [hoftmap, List.getElem?_map, hfd]
      rfl
    rw [List.getElem?_map] at h1
    exact Option.map_eq_some'.mp h1
  obtain ⟨j, hj⟩ := Option.isSome_iff_exists.mp (findOFTEIdx_isSome s1.oft fd e1 hfd1)
  have hofte : bfsFindOFTE s1 (bfsFdToInum s1 fd) = j := by
    unfold bfsFindOFTE
    rw [show bfsFdToInum s1 fd = e1.inum from by rw [hfd1inum, hinum, hfd1i], hj,
      Option.getD_some]
  set s2 := setCursAt s1 (bfsFindOFTE s1 (bfsFdToInum s1 fd)) ((p : Int)).toNat with hs2
  have htn : ((p : Int)).toNat = p := Int.toNat_natCast p
  have hs2tell : bfsTell s2 fd = p := by
    rw [hs2, hofte, htn]
    exact bfsTell_setCursAt_found s1 j p fd e1 hfd1 hj
  have hs2inum : bfsFdToInum s2 fd = bfsFdToInum s fd := by
    rw [hs2, bfsFdToInum_setCursAt]
    exact hfd1inum
  have hs2read : ∀ q, bfsRead s2 (bfsFdToInum s2 fd) q =
      bfsRead s1 (bfsFdToInum s fd) q := by
    intro q
    rw [hs2inum]
    exact bfsRead_congr s2 s1 (by rw [hs2]; exact setCursAt_inodes ..)
      (by rw [hs2]; exact setCursAt_disk ..) (bfsFdToInum s fd) q
  have hsizew : bfsTell s fd + data.length ≤
      (getInode s1 (bfsFdToInum s fd)).size := by
    rw [hs1]
    exact fsWrite_size_ge s fd data hlen2 hInv hfree
  have hs2size : fsSize s2 fd = (getInode s1 (bfsFdToInum s fd)).size := by
    rw [hs2, fsSize_setCursAt]
    unfold fsSize bfsGetSize
    rw [hfd1inum]
  have hsz : (bfsTell s2 fd / BYTESPERBLOCK) * BYTESPERBLOCK ≤ fsSize s2 fd := by
    rw [hs2tell, hs2size]
    have := Nat.div_mul_le_self p BYTESPERBLOCK
    omega
  have hsgapsize : (getInode s (bfsFdToInum s fd)).size ≤ p := hgap1
  have hhead : (bfsRead s2 (bfsFdToInum s2 fd)
      (bfsTell s2 fd / BYTESPERBLOCK)).take 1 = [0] := by
    rw [hs2read, hs2tell]
    have hunmq : bfsFbnToDbn s (bfsFdToInum s fd) (p / BYTESPERBLOCK) = ENODBN :=
      unmapped_of_ge_size s (bfsFdToInum s fd) p hInv hsgapsize
    rcases lt_or_eq_of_le (Nat.div_le_div_right (le_of_lt hgap2) :
        p / BYTESPERBLOCK ≤ bfsTell s fd / BYTESPERBLOCK) with hlt | heq
    · rw [show bfsRead s1 (bfsFdToInum s fd) (p / BYTESPERBLOCK) = zeroBlock from by
        apply bfsRead_unmapped
        rw [hs1]
        exact fsWrite_below_cursor_unmapped s fd data (p / BYTESPERBLOCK) hlt hunmq]
      exact zeroBlock_take_one
    · have hci : data = [] ∨ 0 < bfsTell s fd % BYTESPERBLOCK := by
        right
        have h1 := Nat.div_add_mod p BYTESPERBLOCK
        have h2 := Nat.div_add_mod (bfsTell s fd) BYTESPERBLOCK
        rw [hBB] at h1 h2 ⊢
        rw [hBB] at heq
        omega
      have := fsWrite_gap_block_zero s fd data hlen2 hNodup hOwn (by omega) (heq ▸ hunmq) hci
      rw [hs1, heq]
      exact this
  refine ⟨s2, ?_, (fsRead_one_byte s2 fd buf hhead hsz).1,
    (fsRead_one_byte s2 fd buf hhead hsz).2⟩
  rw [hs2, hs1]
  exact fsSeek_set_eq (fsWrite s fd data).2 fd (p : Int) (Int.ofNat_nonneg p)

/-- A file of size 0 whose descriptor cursor sits at 600, on a disk with two
free blocks: writing one byte at 600 creates a gap over bytes 0..599. -/
def c8s : FSState := ⟨[⟨true, 0, []⟩], [], [⟨0, 600, 1⟩], [], [30, 31]⟩

/-- C8 witness: after writing one byte at cursor 600 on an empty file,
seeking to gap position 100 and reading one byte yields a zero byte. -/
theorem C8_hole_zero_fill_witness :
    ∃ s2, fsSeek (fsWrite c8s 0 [9]).2 0 ((100 : Nat) : Int) SEEK_SET = .ok (0, s2) ∧
      readRet (fsRead s2 0 1 [7, 7]) = 1 ∧
      readBufOut (fsRead s2 0 1 [7, 7]) = 0 :: [(7 : Int), 7].drop 1 :=
  C8_hole_zero_fill c8s 0 100 [9] [7, 7] ⟨0, 600, 1⟩ rfl (by decide)
    (by intro i pr hpr; rcases i with _ | i <;> simp [getInode, c8s] at hpr)
    (by decide)
    (by intro i pr hpr; rcases i with _ | i <;> simp [getInode, c8s] at hpr)
    (by decide) (by decide) (by decide)
